import Mathlib

/-!
A shallow embedding of the animated tiling layout core of
`WF-hypergrid/src/animated-tile.cpp` (namespace `animated_tile`), together
with theorems settling the specification claims about it.

Modelling conventions:
* C++ `float` arithmetic is modelled by exact rational arithmetic (`ℚ`);
  `int` by `ℤ`.  A C++ `static_cast<int>` of a float truncates toward zero,
  modelled by `qtrunc`.  C++ `int` division truncates toward zero,
  modelled by `Int.tdiv`.
* Time points (`std::chrono::time_point`) are modelled as integer
  milliseconds (the code converts elapsed time with
  `duration_cast<milliseconds>`).  Calls to
  `std::chrono::high_resolution_clock::now()` are modelled by an external
  clock oracle `Clock : ℕ → ℤ` together with a cursor: each call to
  `now()` reads the sample at the current cursor position and advances the
  cursor.  This makes the internal clock sampling of the source explicit
  and the whole model purely functional.
* `wayfire_toplevel_view` handles are opaque identifiers, modelled as `ℕ`.
* Reachable trees are strictly binary (`createSplit` is only ever called
  with two non-null children in the source), so the tree model makes both
  children of a split mandatory.
-/

namespace AnimatedTile

/-- Truncation of a rational toward zero, the semantics of C++
`static_cast<int>` on a float value. -/
def qtrunc (q : ℚ) : ℤ :=
  if 0 ≤ q then ⌊q⌋ else ⌈q⌉

/-- `std::clamp` on rationals. -/
def clampQ (v lo hi : ℚ) : ℚ :=
  if v < lo then lo else if hi < v then hi else v

/-- External clock oracle: the stream of instants (in integer
milliseconds) returned by successive `high_resolution_clock::now()`
calls. -/
abbrev Clock := ℕ → ℤ

/-- `wf::geometry_t`: an axis-aligned integer rectangle. -/
structure Geometry where
  x : ℤ
  y : ℤ
  width : ℤ
  height : ℤ
  deriving DecidableEq, Repr

/-- Axis-aligned rectangle disjointness (empty intersection of the two
half-open boxes `[x, x+width) × [y, y+height)`). -/
def Geometry.disjoint (a b : Geometry) : Prop :=
  a.x + a.width ≤ b.x ∨ b.x + b.width ≤ a.x ∨
  a.y + a.height ≤ b.y ∨ b.y + b.height ≤ a.y

instance (a b : Geometry) : Decidable (a.disjoint b) := by
  unfold Geometry.disjoint; infer_instance

/-! ## Bezier curve (`BezierCurve`) -/

/-- `BezierCurve`: a cubic bezier with control points `(p1x, p1y)` and
`(p2x, p2y)`; the outer control points are fixed at `(0,0)` and `(1,1)`. -/
structure BezierCurve where
  p1x : ℚ
  p1y : ℚ
  p2x : ℚ
  p2y : ℚ
  deriving DecidableEq, Repr

namespace BezierCurve

/-- `BezierCurve::computeX`. -/
def computeX (c : BezierCurve) (t : ℚ) : ℚ :=
  let mt := 1 - t
  3 * mt * mt * t * c.p1x + 3 * mt * t * t * c.p2x + t * t * t

/-- `BezierCurve::computeY`. -/
def computeY (c : BezierCurve) (t : ℚ) : ℚ :=
  let mt := 1 - t
  3 * mt * mt * t * c.p1y + 3 * mt * t * t * c.p2y + t * t * t

/-- One unrolling of the loop body of `BezierCurve::findTForX`: the fuel
argument counts the remaining iterations (8 at the top call); each
iteration breaks when the residual `|x(t) - x|` is below `1e-4` or the
derivative magnitude is below `1e-4`, and otherwise performs a clamped
Newton-Raphson update. -/
def findTLoop (c : BezierCurve) (x : ℚ) : ℕ → ℚ → ℚ
  | 0, t => t
  | n + 1, t =>
    let currentX := c.computeX t
    let dx := currentX - x
    if |dx| < 1 / 10000 then t
    else
      let mt := 1 - t
      let derivative := 3 * mt * mt * c.p1x + 6 * mt * t * (c.p2x - c.p1x) +
        3 * t * t * (1 - c.p2x)
      if |derivative| < 1 / 10000 then t
      else findTLoop c x n (clampQ (t - dx / derivative) 0 1)

/-- `BezierCurve::findTForX`: at most 8 Newton-Raphson iterations starting
from `t = x`. -/
def findTForX (c : BezierCurve) (x : ℚ) : ℚ :=
  findTLoop c x 8 x

/-- `BezierCurve::getYForX`. -/
def getYForX (c : BezierCurve) (x : ℚ) : ℚ :=
  if x ≤ 0 then 0
  else if 1 ≤ x then 1
  else c.computeY (c.findTForX x)

end BezierCurve

/-! ## Animated variable (`AnimatedVar<T>`) -/

/-- The linear-interpolation overloads of `AnimatedVar`: floats
interpolate exactly, ints truncate the float lerp toward zero. -/
class Lerp (α : Type) where
  lerp : α → α → ℚ → α

instance : Lerp ℚ where
  lerp a b t := a + (b - a) * t

instance : Lerp ℤ where
  lerp a b t := qtrunc ((a : ℚ) + ((b : ℚ) - (a : ℚ)) * t)

/-- `AnimatedVar<T>`: a scalar with current value, interpolation start
and goal, optional curve, duration, animating flag and start instant. -/
structure AnimatedVar (α : Type) where
  value : α
  start : α
  goal : α
  curve : Option BezierCurve := none
  durationMs : ℚ := 300
  animating : Bool := false
  startTime : ℤ := 0
  deriving DecidableEq, Repr

namespace AnimatedVar

variable {α : Type}

/-- `AnimatedVar(T initial)`. -/
def mkInit (initial : α) : AnimatedVar α :=
  { value := initial, start := initial, goal := initial }

/-- `AnimatedVar::setConfig`. -/
def setConfig (v : AnimatedVar α) (c : Option BezierCurve) (d : ℚ) : AnimatedVar α :=
  { v with curve := c, durationMs := d }

/-- `AnimatedVar::set(goal, animate)`; `now` is the instant sampled by the
`high_resolution_clock::now()` call in the animating branch. -/
def set (v : AnimatedVar α) (g : α) (animate : Bool) (now : ℤ) : AnimatedVar α :=
  if animate = false ∨ v.durationMs ≤ 0 then
    { v with value := g, goal := g, start := g, animating := false }
  else
    { v with start := v.value, goal := g, startTime := now, animating := true }

/-- Whether `set` samples the clock: it does so exactly in the animating
branch. -/
def setSamples (v : AnimatedVar α) (animate : Bool) : Bool :=
  ¬(animate = false ∨ v.durationMs ≤ 0)

/-- `AnimatedVar::set` with the clock sampling threaded explicitly. -/
def setC (v : AnimatedVar α) (g : α) (animate : Bool) (c : Clock) (k : ℕ) :
    AnimatedVar α × ℕ :=
  (v.set g animate (c k), if v.setSamples animate then k + 1 else k)

/-- `AnimatedVar::warp`. -/
def warp (v : AnimatedVar α) (x : α) : AnimatedVar α :=
  { v with value := x, goal := x, start := x, animating := false }

/-- `AnimatedVar::tick`, given the instant `now` sampled inside the call.
When the variable is not animating the source returns before sampling the
clock, so `now` is unused in that branch. -/
def tickAt [Lerp α] (v : AnimatedVar α) (now : ℤ) : AnimatedVar α × Bool :=
  if v.animating = false then (v, false)
  else
    let elapsed : ℚ := ((now - v.startTime : ℤ) : ℚ)
    let progress := clampQ (elapsed / v.durationMs) 0 1
    let eased := match v.curve with
      | some c => c.getYForX progress
      | none => progress
    if 1 ≤ progress then
      ({ v with value := v.goal, animating := false }, false)
    else
      ({ v with value := Lerp.lerp v.start v.goal eased }, true)

/-- `AnimatedVar::tick` with the clock sampling threaded explicitly: the
clock is sampled only when the variable is animating. -/
def tickC [Lerp α] (v : AnimatedVar α) (c : Clock) (k : ℕ) :
    AnimatedVar α × ℕ × Bool :=
  if v.animating = false then (v, k, false)
  else
    let r := v.tickAt (c k)
    (r.1, k + 1, r.2)

end AnimatedVar

/-! ## Animated geometry (`AnimatedGeometry`) -/

/-- `AnimatedGeometry`: position/size plus scale/alpha, each an animated
scalar. -/
structure AnimatedGeometry where
  x : AnimatedVar ℤ := AnimatedVar.mkInit 0
  y : AnimatedVar ℤ := AnimatedVar.mkInit 0
  width : AnimatedVar ℤ := AnimatedVar.mkInit 100
  height : AnimatedVar ℤ := AnimatedVar.mkInit 100
  scale : AnimatedVar ℚ := AnimatedVar.mkInit 1
  alpha : AnimatedVar ℚ := AnimatedVar.mkInit 1
  deriving DecidableEq, Repr

namespace AnimatedGeometry

/-- `AnimatedGeometry::setConfig`. -/
def setConfig (g : AnimatedGeometry) (c : Option BezierCurve) (d : ℚ) :
    AnimatedGeometry :=
  { x := g.x.setConfig c d
    y := g.y.setConfig c d
    width := g.width.setConfig c d
    height := g.height.setConfig c d
    scale := g.scale.setConfig c d
    alpha := g.alpha.setConfig c d }

/-- `AnimatedGeometry::setGoal`: propagates to x/y/width/height only,
sampling the clock once per scalar that starts animating. -/
def setGoalC (g : AnimatedGeometry) (geo : Geometry) (animate : Bool)
    (c : Clock) (k : ℕ) : AnimatedGeometry × ℕ :=
  let rx := g.x.setC geo.x animate c k
  let ry := g.y.setC geo.y animate c rx.2
  let rw := g.width.setC geo.width animate c ry.2
  let rh := g.height.setC geo.height animate c rw.2
  ({ g with x := rx.1, y := ry.1, width := rw.1, height := rh.1 }, rh.2)

/-- `AnimatedGeometry::warp` (no clock samples: `AnimatedVar::warp` never
reads the clock). -/
def warp (g : AnimatedGeometry) (geo : Geometry) : AnimatedGeometry :=
  { g with
    x := g.x.warp geo.x
    y := g.y.warp geo.y
    width := g.width.warp geo.width
    height := g.height.warp geo.height }

/-- `AnimatedGeometry::startPopin`. -/
def startPopinC (g : AnimatedGeometry) (fromScale : ℚ) (c : Clock) (k : ℕ) :
    AnimatedGeometry × ℕ :=
  let rs := (g.scale.warp fromScale).setC 1 true c k
  let ra := (g.alpha.warp 0).setC 1 true c rs.2
  ({ g with scale := rs.1, alpha := ra.1 }, ra.2)

/-- `AnimatedGeometry::startPopout`. -/
def startPopoutC (g : AnimatedGeometry) (toScale : ℚ) (c : Clock) (k : ℕ) :
    AnimatedGeometry × ℕ :=
  let rs := g.scale.setC toScale true c k
  let ra := g.alpha.setC 0 true c rs.2
  ({ g with scale := rs.1, alpha := ra.1 }, ra.2)

/-- `AnimatedGeometry::tick`: advances all six scalars (never
short-circuiting) and returns whether any is still animating.  Each
animating scalar samples the clock at its own `tick` call. -/
def tickC (g : AnimatedGeometry) (c : Clock) (k : ℕ) :
    AnimatedGeometry × ℕ × Bool :=
  let ra := g.x.tickC c k
  let rb := g.y.tickC c ra.2.1
  let rc := g.width.tickC c rb.2.1
  let rd := g.height.tickC c rc.2.1
  let re := g.scale.tickC c rd.2.1
  let rf := g.alpha.tickC c re.2.1
  ({ x := ra.1
     y := rb.1
     width := rc.1
     height := rd.1
     scale := re.1
     alpha := rf.1 }, rf.2.1,
   ra.2.2 || rb.2.2 || rc.2.2 || rd.2.2 || re.2.2 || rf.2.2)

/-- `AnimatedGeometry::current`. -/
def current (g : AnimatedGeometry) : Geometry :=
  { x := g.x.value, y := g.y.value, width := g.width.value, height := g.height.value }

/-- `AnimatedGeometry::goal`. -/
def goal (g : AnimatedGeometry) : Geometry :=
  { x := g.x.goal, y := g.y.goal, width := g.width.goal, height := g.height.goal }

/-- `AnimatedGeometry::currentScale`. -/
def currentScale (g : AnimatedGeometry) : ℚ := g.scale.value

/-- `AnimatedGeometry::currentAlpha`. -/
def currentAlpha (g : AnimatedGeometry) : ℚ := g.alpha.value

end AnimatedGeometry

/-! ## Tile node (`TileNode`) -/

/-- `SplitDir`. -/
inductive SplitDir where
  | HORIZONTAL
  | VERTICAL
  deriving DecidableEq, Repr

/-- `SplitDir` flipped, as done by the `togglesplit` message. -/
def SplitDir.flip : SplitDir → SplitDir
  | .HORIZONTAL => .VERTICAL
  | .VERTICAL => .HORIZONTAL

/-- A reachable `TileNode` tree: a leaf holds one window handle (plus the
pseudotile metadata the source keeps on it); a split holds a direction, a
ratio, the `m_splitLocked` flag and two children.  Every node owns an
`AnimatedGeometry`.  Parent back-references of the source are represented
implicitly by tree paths. -/
inductive Tree where
  | leaf (view : ℕ) (geo : AnimatedGeometry) (pseudo : Bool) (preferred : Geometry)
  | split (dir : SplitDir) (ratio : ℚ) (locked : Bool) (geo : AnimatedGeometry)
      (c0 c1 : Tree)
  deriving DecidableEq, Repr

namespace Tree

/-- The node's own `AnimatedGeometry` (`TileNode::geometry`). -/
def geo : Tree → AnimatedGeometry
  | leaf _ g _ _ => g
  | split _ _ _ g _ _ => g

/-- `TileNode::splitDir` as a total accessor; a leaf reports the
default-initialised `m_splitDir = HORIZONTAL` of the source. -/
def dirOf : Tree → SplitDir
  | leaf _ _ _ _ => .HORIZONTAL
  | split d _ _ _ _ _ => d

/-- `TileNode::isSplitLocked` as a total accessor (`false` on leaves,
the source default). -/
def lockedOf : Tree → Bool
  | leaf _ _ _ _ => false
  | split _ _ l _ _ _ => l

/-- `TileNode::isLeaf`. -/
def isLeafB : Tree → Bool
  | leaf _ _ _ _ => true
  | split _ _ _ _ _ _ => false

/-- Depth-first search for the leaf owning a view
(`TileNode::findView`), child 0 before child 1; returns the path of the
first match (`false` = child 0, `true` = child 1). -/
def findPath (v : ℕ) : Tree → Option (List Bool)
  | leaf w _ _ _ => if w = v then some [] else none
  | split _ _ _ _ c0 c1 =>
    match c0.findPath v with
    | some p => some (false :: p)
    | none =>
      match c1.findPath v with
      | some p => some (true :: p)
      | none => none

/-- The first leaf owning `v`, as a subtree (`TileNode::findView`). -/
def findViewT (v : ℕ) : Tree → Option Tree
  | leaf w g ps pf => if w = v then some (leaf w g ps pf) else none
  | split _ _ _ _ c0 c1 =>
    match c0.findViewT v with
    | some n => some n
    | none => c1.findViewT v

/-- Whether the (sub)tree contains a leaf owning `v`. -/
def hasViewT (t : Tree) (v : ℕ) : Bool :=
  (t.findViewT v).isSome

/-- `TileNode::collectViews`, depth-first. -/
def views : Tree → List ℕ
  | leaf w _ _ _ => [w]
  | split _ _ _ _ c0 c1 => c0.views ++ c1.views

/-- `TileNode::countLeaves` (every leaf of the model holds a view). -/
def countLeaves : Tree → ℤ
  | leaf _ _ _ _ => 1
  | split _ _ _ _ c0 c1 => c0.countLeaves + c1.countLeaves

/-- The subtree at a path (`false` = child 0, `true` = child 1). -/
def nodeAt : Tree → List Bool → Option Tree
  | t, [] => some t
  | leaf _ _ _ _, _ :: _ => none
  | split _ _ _ _ c0 c1, b :: p => (if b then c1 else c0).nodeAt p

/-- Replace the subtree at a path (used to express the source's
`setChild`-based surgery through the parent back-reference). -/
def replaceAt : Tree → List Bool → Tree → Tree
  | _, [], r => r
  | leaf w g ps pf, _ :: _, _ => leaf w g ps pf
  | split d ρ l g c0 c1, b :: p, r =>
    if b then split d ρ l g c0 (c1.replaceAt p r)
    else split d ρ l g (c0.replaceAt p r) c1

/-- `TileNode::setConfig` (propagates curve and duration to the node's
own geometry; the source configures each node individually as it is
created). -/
def setConfigNode (t : Tree) (c : Option BezierCurve) (d : ℚ) : Tree :=
  match t with
  | leaf w g ps pf => leaf w (g.setConfig c d) ps pf
  | split dr ρ l g c0 c1 => split dr ρ l (g.setConfig c d) c0 c1

/-- `TileNode::applyLayout`: sets this node's goal rectangle to `bounds`,
recomputes the split direction from the aspect ratio unless
`preserveSplit` or the node's lock suppresses it, partitions the bounds
minus `gapIn` along the chosen axis by the node's ratio (the `float`
product is truncated to `int` by the cast in the source), and recurses. -/
def applyLayout (t : Tree) (bounds : Geometry) (gapIn gapOut : ℤ)
    (preserveSplit : Bool) (mult : ℚ) (animate : Bool) (c : Clock) (k : ℕ) :
    Tree × ℕ :=
  match t with
  | leaf w g ps pf =>
    let rg := g.setGoalC bounds animate c k
    (leaf w rg.1 ps pf, rg.2)
  | split d ρ l g c0 c1 =>
    let rg := g.setGoalC bounds animate c k
    let d' := if preserveSplit = false ∧ l = false then
        (if (bounds.width : ℚ) * mult > (bounds.height : ℚ) then
          SplitDir.HORIZONTAL else SplitDir.VERTICAL)
      else d
    let cb :=
      if d' = SplitDir.HORIZONTAL then
        let availableWidth := bounds.width - gapIn
        let width1 := qtrunc ((availableWidth : ℚ) * ρ)
        let width2 := availableWidth - width1
        (Geometry.mk bounds.x bounds.y width1 bounds.height,
         Geometry.mk (bounds.x + width1 + gapIn) bounds.y width2 bounds.height)
      else
        let availableHeight := bounds.height - gapIn
        let height1 := qtrunc ((availableHeight : ℚ) * ρ)
        let height2 := availableHeight - height1
        (Geometry.mk bounds.x bounds.y bounds.width height1,
         Geometry.mk bounds.x (bounds.y + height1 + gapIn) bounds.width height2)
    let r0 := c0.applyLayout cb.1 gapIn gapOut preserveSplit mult animate c rg.2
    let r1 := c1.applyLayout cb.2 gapIn gapOut preserveSplit mult animate c r0.2
    (split d' ρ l rg.1 r0.1 r1.1, r1.2)

/-- `TileNode::tickAnimation`: ticks this node's geometry, then both
children, never short-circuiting; returns the disjunction. -/
def tickAnimation (t : Tree) (c : Clock) (k : ℕ) : Tree × ℕ × Bool :=
  match t with
  | leaf w g ps pf =>
    let rg := g.tickC c k
    (leaf w rg.1 ps pf, rg.2.1, rg.2.2)
  | split d ρ l g c0 c1 =>
    let rg := g.tickC c k
    let r0 := c0.tickAnimation c rg.2.1
    let r1 := c1.tickAnimation c r0.2.1
    (split d ρ l rg.1 r0.1 r1.1, r1.2.1, rg.2.2 || r0.2.2 || r1.2.2)

/-- The path of `TileTree::findLastLeaf` starting from a node: the source
prefers the second child at every split, and in the reachable strictly
binary trees that descent always ends at a leaf. -/
def lastLeafPath : Tree → List Bool
  | leaf _ _ _ _ => []
  | split _ _ _ _ _ c1 => true :: c1.lastLeafPath

/-- The functional rendering of the pointer surgery in
`TileTree::removeView` for a view present in the (sub)tree: the first
leaf owning `v` (found depth-first) is removed; if the whole subtree was
that leaf the result is `none`, otherwise the leaf's parent split is
replaced by the leaf's sibling.  Only called under `hasViewT`. -/
def removeFirstAux (v : ℕ) : Tree → Option Tree
  | leaf _ _ _ _ => none
  | split d ρ l g c0 c1 =>
    if c0.hasViewT v then
      match c0.removeFirstAux v with
      | none => some c1
      | some c0' => some (split d ρ l g c0' c1)
    else
      match c1.removeFirstAux v with
      | none => some c0
      | some c1' => some (split d ρ l g c0 c1')

end Tree

/-! ## Tile tree manager (`TileTree`) -/

/-- `TileTree`: the per-workspace layout tree and its configuration.
Field defaults are the member initialisers of the source. -/
structure TileTree where
  root : Option Tree := none
  bounds : Geometry := { x := 0, y := 0, width := 1920, height := 1080 }
  curve : Option BezierCurve := none
  durationMs : ℚ := 300
  gapIn : ℤ := 5
  gapOut : ℤ := 10
  preserveSplit : Bool := false
  splitWidthMultiplier : ℚ := 1
  forceSplit : ℤ := 0
  smartSplit : Bool := false
  focusedView : Option ℕ := none
  cursorX : ℤ := 0
  cursorY : ℤ := 0
  deriving Repr

namespace TileTree

/-- `TileTree::setConfig`. -/
def setConfig (s : TileTree) (c : Option BezierCurve) (d : ℚ) (gIn gOut : ℤ)
    (preserve : Bool) (mult : ℚ) (force : ℤ) (smart : Bool) : TileTree :=
  { s with
    curve := c
    durationMs := d
    gapIn := gIn
    gapOut := gOut
    preserveSplit := preserve
    splitWidthMultiplier := mult
    forceSplit := force
    smartSplit := smart }

/-- `TileTree::setBounds`. -/
def setBounds (s : TileTree) (b : Geometry) : TileTree :=
  { s with bounds := b }

/-- `TileTree::setFocusedView`. -/
def setFocusedView (s : TileTree) (v : Option ℕ) : TileTree :=
  { s with focusedView := v }

/-- The outer-gap-adjusted workspace bounds computed at the top of
`TileTree::addView` and `TileTree::recalculateLayout`. -/
def effectiveBounds (s : TileTree) : Geometry :=
  { x := s.bounds.x + s.gapOut
    y := s.bounds.y + s.gapOut
    width := s.bounds.width - 2 * s.gapOut
    height := s.bounds.height - 2 * s.gapOut }

/-- `TileTree::recalculateLayout`. -/
def recalculateLayout (s : TileTree) (animate : Bool) (c : Clock) (k : ℕ) :
    TileTree × ℕ :=
  match s.root with
  | none => (s, k)
  | some r =>
    let rr := r.applyLayout s.effectiveBounds s.gapIn s.gapOut s.preserveSplit
      s.splitWidthMultiplier animate c k
    ({ s with root := some rr.1 }, rr.2)

/-- `TileTree::determineSplitDirection`: smart-split compares the
cursor's offset from the existing node's goal-rectangle centre along
each axis (all divisions are C++ `int` divisions, truncating), otherwise
the aspect-ratio rule decides. -/
def determineSplitDirection (s : TileTree) (bounds : Geometry)
    (existing : Tree) : SplitDir :=
  if s.smartSplit then
    let nodeGeo := existing.geo.goal
    let centerX := nodeGeo.x + nodeGeo.width.tdiv 2
    let centerY := nodeGeo.y + nodeGeo.height.tdiv 2
    let dx := |s.cursorX - centerX|
    let dy := |s.cursorY - centerY|
    let relX : ℚ := (dx : ℚ) / ((nodeGeo.width.tdiv 2 : ℤ) : ℚ)
    let relY : ℚ := (dy : ℚ) / ((nodeGeo.height.tdiv 2 : ℤ) : ℚ)
    if relX > relY then .HORIZONTAL else .VERTICAL
  else if (bounds.width : ℚ) * s.splitWidthMultiplier > (bounds.height : ℚ) then
    .HORIZONTAL
  else .VERTICAL

/-- `TileTree::calculateNewWindowStart`. -/
def calculateNewWindowStart (bounds : Geometry) (dir : SplitDir)
    (newOnLeft : Bool) : Geometry :=
  if dir = SplitDir.HORIZONTAL then
    let halfWidth := bounds.width.tdiv 2
    if newOnLeft then
      { x := bounds.x, y := bounds.y, width := halfWidth, height := bounds.height }
    else
      { x := bounds.x + halfWidth, y := bounds.y, width := halfWidth,
        height := bounds.height }
  else
    let halfHeight := bounds.height.tdiv 2
    if newOnLeft then
      { x := bounds.x, y := bounds.y, width := bounds.width, height := halfHeight }
    else
      { x := bounds.x, y := bounds.y + halfHeight, width := bounds.width,
        height := halfHeight }

/-- The geometry of a freshly created leaf after `TileNode::createLeaf`
plus `setConfig(m_curve, m_durationMs)`. -/
def freshLeafGeo (s : TileTree) : AnimatedGeometry :=
  AnimatedGeometry.setConfig {} s.curve s.durationMs

/-- The geometry of a freshly created split node after
`TileNode::createSplit` plus `setConfig(m_curve, m_durationMs)`. -/
def freshSplitGeo (s : TileTree) : AnimatedGeometry :=
  AnimatedGeometry.setConfig {} s.curve s.durationMs

/-- `TileTree::addView`.  The three population cases of the source:
first window becomes the root (warped to the effective bounds), second
window creates a split at the root, later windows split the focused
window's leaf (or the second-child-biased last leaf).  The new leaf's
enter effect (`startPopin(0.8f)`) is started where the source does, and
the pass finishes with `recalculateLayout(animate)`. -/
def addView (s : TileTree) (v : ℕ) (animate : Bool) (c : Clock) (k : ℕ) :
    TileTree × ℕ :=
  let eff := s.effectiveBounds
  match s.root with
  | none =>
    let rp := (s.freshLeafGeo.warp eff).startPopinC (4 / 5) c k
    let newLeaf := Tree.leaf v rp.1 false { x := 0, y := 0, width := 0, height := 0 }
    recalculateLayout { s with root := some newLeaf } animate c rp.2
  | some r =>
    if r.isLeafB then
      let dir := s.determineSplitDirection eff r
      let startGeo := calculateNewWindowStart eff dir (s.forceSplit = 1)
      let rp := (s.freshLeafGeo.warp startGeo).startPopinC (4 / 5) c k
      let newLeaf := Tree.leaf v rp.1 false { x := 0, y := 0, width := 0, height := 0 }
      let newRoot :=
        if s.forceSplit = 1 then
          Tree.split dir (1 / 2) false s.freshSplitGeo newLeaf r
        else
          Tree.split dir (1 / 2) false s.freshSplitGeo r newLeaf
      recalculateLayout { s with root := some newRoot } animate c rp.2
    else
      let targetPath :=
        match s.focusedView with
        | some f =>
          match r.findPath f with
          | some p => p
          | none => r.lastLeafPath
        | none => r.lastLeafPath
      match r.nodeAt targetPath with
      | some existing =>
        let existingGeo := existing.geo.goal
        let dir := s.determineSplitDirection existingGeo existing
        let newOnRight :=
          if s.forceSplit = 0 ∧ s.smartSplit then
            let centerX := existingGeo.x + existingGeo.width.tdiv 2
            let centerY := existingGeo.y + existingGeo.height.tdiv 2
            if dir = SplitDir.HORIZONTAL then decide (s.cursorX > centerX)
            else decide (s.cursorY > centerY)
          else decide (¬s.forceSplit = 1)
        let newLeafStart := calculateNewWindowStart existingGeo dir (!newOnRight)
        let rp := (s.freshLeafGeo.warp newLeafStart).startPopinC (4 / 5) c k
        let newLeaf := Tree.leaf v rp.1 false { x := 0, y := 0, width := 0, height := 0 }
        let newSplit :=
          if newOnRight then
            Tree.split dir (1 / 2) false s.freshSplitGeo existing newLeaf
          else
            Tree.split dir (1 / 2) false s.freshSplitGeo newLeaf existing
        recalculateLayout { s with root := some (r.replaceAt targetPath newSplit) }
          animate c rp.2
      | none => recalculateLayout s animate c k

/-- `TileTree::removeView`.  A view not in the tree is a silent no-op; a
sole root leaf empties the tree and returns without recalculating;
otherwise the owning leaf's sibling replaces its parent (in the
grandparent's slot, or as the new root) and layout is recalculated.
The removed node's exit effect (`startPopout`) acts on the node being
detached, which leaves the tree, and is not represented. -/
def removeView (s : TileTree) (v : ℕ) (animate : Bool) (c : Clock) (k : ℕ) :
    TileTree × ℕ :=
  match s.root with
  | none => (s, k)
  | some r =>
    if r.hasViewT v then
      match r.removeFirstAux v with
      | none => ({ s with root := none }, k)
      | some r' => recalculateLayout { s with root := some r' } animate c k
    else (s, k)

/-- `TileTree::hasView`. -/
def hasView (s : TileTree) (v : ℕ) : Bool :=
  match s.root with
  | none => false
  | some r => r.hasViewT v

/-- `TileTree::tickAnimations`. -/
def tickAnimations (s : TileTree) (c : Clock) (k : ℕ) : TileTree × ℕ × Bool :=
  match s.root with
  | none => (s, k, false)
  | some r =>
    let rr := r.tickAnimation c k
    ({ s with root := some rr.1 }, rr.2.1, rr.2.2)

/-- `TileTree::getViewGeometry`. -/
def getViewGeometry (s : TileTree) (v : ℕ) : Option Geometry :=
  match s.root with
  | none => none
  | some r =>
    match r.findViewT v with
    | none => none
    | some n => some n.geo.current

/-- `TileTree::getViewGoalGeometry`. -/
def getViewGoalGeometry (s : TileTree) (v : ℕ) : Option Geometry :=
  match s.root with
  | none => none
  | some r =>
    match r.findViewT v with
    | none => none
    | some n => some n.geo.goal

/-- `TileTree::getViewScaleAlpha`. -/
def getViewScaleAlpha (s : TileTree) (v : ℕ) : ℚ × ℚ :=
  match s.root with
  | none => (1, 1)
  | some r =>
    match r.findViewT v with
    | none => (1, 1)
    | some n => (n.geo.currentScale, n.geo.currentAlpha)

/-- `TileTree::getViews`. -/
def getViews (s : TileTree) : List ℕ :=
  match s.root with
  | none => []
  | some r => r.views

/-- `TileTree::isEmpty`. -/
def isEmpty (s : TileTree) : Bool :=
  match s.root with
  | none => true
  | some r => r.countLeaves = 0

/-- `TileTree::handleLayoutMessage`: resolves the target (explicit target
view, else the tracked focused view), requires the owning leaf and its
parent to exist, then handles `togglesplit` (flip and lock the parent's
direction), `swapnext`/`swapprev` (swap the two child slots of the
parent) and `pseudo` (toggle the pseudotile flag, recording the view's
externally reported geometry `extGeo` as preferred size when enabling).
Each handled message recalculates layout; anything else is a no-op. -/
def handleLayoutMessage (s : TileTree) (msg : String) (targetView : Option ℕ)
    (extGeo : Geometry) (c : Clock) (k : ℕ) : TileTree × ℕ :=
  match s.root with
  | none => (s, k)
  | some r =>
    let tv := match targetView with
      | some v => some v
      | none => s.focusedView
    match tv with
    | none => (s, k)
    | some v =>
      match r.findPath v with
      | none => (s, k)
      | some p =>
        if p = [] then (s, k)
        else
          let q := p.dropLast
          if msg = "togglesplit" then
            match r.nodeAt q with
            | some (Tree.split d ρ _l g c0 c1) =>
              let r' := r.replaceAt q (Tree.split d.flip ρ true g c0 c1)
              recalculateLayout { s with root := some r' } true c k
            | _ => (s, k)
          else if msg = "swapnext" ∨ msg = "swapprev" then
            match r.nodeAt q with
            | some (Tree.split d ρ l g c0 c1) =>
              let r' := r.replaceAt q (Tree.split d ρ l g c1 c0)
              recalculateLayout { s with root := some r' } true c k
            | _ => (s, k)
          else if msg = "pseudo" then
            match r.nodeAt p with
            | some (Tree.leaf w g ps pf) =>
              let ps' := !ps
              let pf' := if ps' = true ∧ targetView.isSome then extGeo else pf
              let r' := r.replaceAt p (Tree.leaf w g ps' pf')
              recalculateLayout { s with root := some r' } true c k
            | _ => (s, k)
          else (s, k)

end TileTree

/-! ## Operation sequences on a single animated scalar -/

/-- The public operations on one `AnimatedVar`: configure, set a goal,
warp, advance.  The instants are the clock samples taken inside the
respective calls. -/
inductive VarOp (α : Type) where
  | configure (c : Option BezierCurve) (d : ℚ)
  | setGoal (g : α) (animate : Bool) (now : ℤ)
  | warpTo (x : α)
  | advance (now : ℤ)

/-- Run one operation. -/
def runOp {α : Type} [Lerp α] (v : AnimatedVar α) : VarOp α → AnimatedVar α
  | .configure c d => v.setConfig c d
  | .setGoal g a now => v.set g a now
  | .warpTo x => v.warp x
  | .advance now => (v.tickAt now).1

/-- Run a sequence of operations from a state. -/
def runOps {α : Type} [Lerp α] (v : AnimatedVar α) (ops : List (VarOp α)) :
    AnimatedVar α :=
  ops.foldl runOp v

/-! ## Shared-instant advance (modelled from the spec) -/

/-- Modelled from the spec: `advance(now)` on one scalar against an
explicitly supplied shared instant (spec section 5 requires every scalar
ticked in one pass to advance against the same single instant).  The
per-scalar step itself coincides with the source's `tick` body. -/
def AnimatedGeometry.tickSharedAt (g : AnimatedGeometry) (now : ℤ) :
    AnimatedGeometry × Bool :=
  let ra := g.x.tickAt now
  let rb := g.y.tickAt now
  let rc := g.width.tickAt now
  let rd := g.height.tickAt now
  let re := g.scale.tickAt now
  let rf := g.alpha.tickAt now
  ({ x := ra.1
     y := rb.1
     width := rc.1
     height := rd.1
     scale := re.1
     alpha := rf.1 },
   ra.2 || rb.2 || rc.2 || rd.2 || re.2 || rf.2)

/-- Modelled from the spec: the whole-tree advance pass against a single
shared instant. -/
def Tree.tickSharedAt (t : Tree) (now : ℤ) : Tree × Bool :=
  match t with
  | .leaf w g ps pf =>
    let rg := g.tickSharedAt now
    (.leaf w rg.1 ps pf, rg.2)
  | .split d ρ l g c0 c1 =>
    let rg := g.tickSharedAt now
    let r0 := c0.tickSharedAt now
    let r1 := c1.tickSharedAt now
    (.split d ρ l rg.1 r0.1 r1.1, rg.2 || r0.2 || r1.2)

/-- Modelled from the spec: the manager-level advance against a single
shared instant. -/
def TileTree.tickSharedAt (s : TileTree) (now : ℤ) : TileTree × Bool :=
  match s.root with
  | none => (s, false)
  | some r =>
    let rr := r.tickSharedAt now
    ({ s with root := some rr.1 }, rr.2)

/-! ## Path helpers for parent/sibling navigation -/

/-- The parent path of a non-root node's path (everything but the last
step); the source reaches the parent through the node's back-reference. -/
def parPath : List Bool → List Bool
  | [] => []
  | [_] => []
  | b :: p => b :: parPath p

/-- The sibling path of a non-root node's path (same parent, last step
flipped); the source reaches the sibling via `parent->child(1 - idx)`. -/
def sibPath : List Bool → List Bool
  | [] => []
  | [b] => [!b]
  | b :: p => b :: sibPath p

/-- One `applyLayout` call's parameters (for stating properties over
arbitrary sequences of layout passes). -/
structure LayoutCall where
  bounds : Geometry
  gapIn : ℤ
  gapOut : ℤ
  preserve : Bool
  mult : ℚ
  animate : Bool
  clock : Clock
  cursor : ℕ

/-- Apply a sequence of `applyLayout` calls to a tree. -/
def applyCalls (calls : List LayoutCall) (t : Tree) : Tree :=
  calls.foldl
    (fun u cl =>
      (u.applyLayout cl.bounds cl.gapIn cl.gapOut cl.preserve cl.mult cl.animate
        cl.clock cl.cursor).1)
    t

/-! ## Pointer-level child accessors (`TileNode::child` / `setChild`) -/

namespace PtrModel

/-- The pointer-level fields of a `TileNode` relevant to the child
accessors: the two child slots and the parent back-reference, with node
identity modelled by an address (`ℕ`). -/
structure NodeRec where
  isLeaf : Bool := true
  child0 : Option ℕ := none
  child1 : Option ℕ := none
  parent : Option ℕ := none
  deriving DecidableEq, Repr

/-- A heap of `TileNode` objects, addressed by `ℕ`. -/
abbrev Store := ℕ → NodeRec

/-- `TileNode::child(idx)`: in-range indices read the slot, anything else
returns null. -/
def child (s : Store) (self : ℕ) (idx : ℤ) : Option ℕ :=
  if 0 ≤ idx ∧ idx < 2 then
    (if idx = 0 then (s self).child0 else (s self).child1)
  else none

/-- `TileNode::setChild(idx, newChild)`: out-of-range indices return
before touching anything; in range, the slot is reassigned and the new
child's parent back-reference is updated. -/
def setChild (s : Store) (self : ℕ) (idx : ℤ) (newChild : Option ℕ) : Store :=
  if idx < 0 ∨ 1 < idx then s
  else
    let s1 : Store := fun n =>
      if n = self then
        (if idx = 0 then { s n with child0 := newChild }
         else { s n with child1 := newChild })
      else s n
    match newChild with
    | some cId => fun n => if n = cId then { s1 n with parent := some self } else s1 n
    | none => s1

end PtrModel

/-! ## Concrete states used by individual claims -/

/-- The identity easing curve: control points `(0,0)` and `(1,1)`. -/
def idCurve : BezierCurve :=
  { p1x := 0, p1y := 0, p2x := 1, p2y := 1 }

/-- The cubic both coordinates of `idCurve` evaluate to:
`x(t) = y(t) = 3t^2 - 2t^3`. -/
def gPoly (t : ℚ) : ℚ :=
  3 * t ^ 2 - 2 * t ^ 3

/-- A scalar mid-flight from 0 toward 100 (duration 300 ms, no curve),
started at instant 0. -/
def c2Var : AnimatedVar ℤ :=
  { value := 0, start := 0, goal := 100, animating := true, startTime := 0 }

/-- A node geometry whose x and y scalars are in identical animating
states. -/
def c2Geo : AnimatedGeometry :=
  { x := c2Var, y := c2Var }

/-- A tree consisting of one leaf carrying `c2Geo`. -/
def c2State : TileTree :=
  { root := some (Tree.leaf 7 c2Geo false { x := 0, y := 0, width := 0, height := 0 }) }

/-- A clock whose first two samples are 150 ms apart: the first scalar
ticked in a pass observes instant 150, every later one observes 300. -/
def c2Clock : Clock := fun k => if k = 0 then 150 else 300

/-- A constant clock: every sample in a pass returns the same instant. -/
def constClock (n : ℤ) : Clock := fun _ => n

/-- The C3 scenario: two windows inserted into a default-configured empty
tree (bounds `{0,0,1920,1080}`, gapIn 5, gapOut 10, ratio 0.5). -/
def c3Scenario : TileTree :=
  (((({} : TileTree).addView 1 true (constClock 0) 0).1.addView 2 true
    (constClock 0) 0).1)

/-- The C6 scenario starts from the same two-window tree and toggles the
split at window 2's parent. -/
def c6Toggled : TileTree :=
  (c3Scenario.handleLayoutMessage "togglesplit" (some 2)
    { x := 0, y := 0, width := 0, height := 0 } (constClock 0) 0).1

/-- The C1 scenario: an integer scalar constructed at 0, re-targeted to
100 with animation at instant 0 (default duration 300 ms, no curve),
then advanced at instant 300 — the animation completes. -/
def c1Run : AnimatedVar ℤ :=
  runOps (AnimatedVar.mkInit 0) [VarOp.setGoal 100 true 0, VarOp.advance 300]

/-- A hand-built two-window tree (windows 1 and 2 under a horizontal
root split), used as a concrete input by witnesses. -/
def twoLeafTree : Tree :=
  Tree.split SplitDir.HORIZONTAL (1 / 2) false {}
    (Tree.leaf 1 {} false (Geometry.mk 0 0 0 0))
    (Tree.leaf 2 {} false (Geometry.mk 0 0 0 0))

/-- A tree manager state holding `twoLeafTree`. -/
def twoLeafState : TileTree :=
  { root := some twoLeafTree }

/-! ## Basic lemmas about the embedding -/

namespace Tree

theorem hasViewT_leaf (w : ℕ) (g : AnimatedGeometry) (ps : Bool) (pf : Geometry)
    (v : ℕ) : (Tree.leaf w g ps pf).hasViewT v = decide (w = v) := by
  by_cases h : w = v <;> simp [hasViewT, findViewT, h]

theorem findViewT_split (d : SplitDir) (ρ : ℚ) (l : Bool) (g : AnimatedGeometry)
    (c0 c1 : Tree) (v : ℕ) :
    (Tree.split d ρ l g c0 c1).findViewT v =
      (match c0.findViewT v with
       | some n => some n
       | none => c1.findViewT v) := rfl

theorem hasViewT_split (d : SplitDir) (ρ : ℚ) (l : Bool) (g : AnimatedGeometry)
    (c0 c1 : Tree) (v : ℕ) :
    (Tree.split d ρ l g c0 c1).hasViewT v = (c0.hasViewT v || c1.hasViewT v) := by
  unfold hasViewT
  rw [findViewT_split]
  cases h0 : c0.findViewT v <;> cases h1 : c1.findViewT v <;> simp [h0, h1]

theorem findPath_isSome (t : Tree) (v : ℕ) :
    (t.findPath v).isSome = t.hasViewT v := by
  induction t with
  | leaf w g ps pf => by_cases h : w = v <;> simp [findPath, hasViewT_leaf, h]
  | split d ρ l g c0 c1 ih0 ih1 =>
    rw [hasViewT_split]
    unfold findPath
    cases h0 : c0.findPath v with
    | some p =>
      simp [h0] at ih0
      simp [h0, ih0]
    | none =>
      cases h1 : c1.findPath v with
      | some p =>
        simp [h0] at ih0
        simp [h1] at ih1
        simp [h0, h1, ih0, ih1]
      | none =>
        simp [h0] at ih0
        simp [h1] at ih1
        simp [h0, h1, ih0, ih1]

end Tree

/-! ## Claim C1 -/

/-- One operation preserves the invariant "not animating implies current
equals goal". -/
theorem runOp_value_eq_goal {α : Type} [Lerp α] (v : AnimatedVar α) (op : VarOp α)
    (h : v.animating = false → v.value = v.goal) :
    (runOp v op).animating = false → (runOp v op).value = (runOp v op).goal := by
  cases op with
  | configure c d =>
    intro ha
    simp only [runOp, AnimatedVar.setConfig] at ha ⊢
    exact h ha
  | setGoal g a now =>
    simp only [runOp, AnimatedVar.set]
    split_ifs with hc
    · intro _; rfl
    · intro ha; simp at ha
  | warpTo x =>
    intro _; rfl
  | advance now =>
    simp only [runOp, AnimatedVar.tickAt]
    split_ifs with h1 h2
    · exact fun _ => h h1
    · intro _; rfl
    · intro ha
      simp only at ha
      simp [ha] at h1

/-- C1 (counterexample): after `warp 0`, `setGoal(100, animate)` at
instant 0 and `advance` at instant 300 the animation has completed — the
animating flag is false and current equals goal — but the start value
still holds the old value 0, so "current == start == goal" fails. -/
theorem c1_counterexample :
    c1Run.animating = false ∧ c1Run.value = c1Run.goal ∧
      ¬(c1Run.value = c1Run.start ∧ c1Run.start = c1Run.goal) := by
  with_unfolding_all decide

/-- C1 (amended): in every state reachable by construction, configure,
setGoal, warp and advance, "not animating" implies current == goal (the
start value may lag behind after a completed animation). -/
theorem c1_not_animating_current_eq_goal {α : Type} [Lerp α] (init : α)
    (ops : List (VarOp α))
    (h : (runOps (AnimatedVar.mkInit init) ops).animating = false) :
    (runOps (AnimatedVar.mkInit init) ops).value =
      (runOps (AnimatedVar.mkInit init) ops).goal := by
  suffices hgen : ∀ (v : AnimatedVar α), (v.animating = false → v.value = v.goal) →
      ((ops.foldl runOp v).animating = false → (ops.foldl runOp v).value =
        (ops.foldl runOp v).goal) by
    exact hgen (AnimatedVar.mkInit init) (fun _ => rfl) h
  clear h
  induction ops with
  | nil => intro v hv; exact hv
  | cons op rest ih =>
    intro v hv
    exact ih (runOp v op) (runOp_value_eq_goal v op hv)

/-- Witness for C1's amended theorem: a concrete completed run. -/
theorem c1_witness :
    c1Run.animating = false ∧
      (runOps (AnimatedVar.mkInit (0 : ℤ))
        [VarOp.setGoal 100 true 0, VarOp.advance 300]).value =
      (runOps (AnimatedVar.mkInit (0 : ℤ))
        [VarOp.setGoal 100 true 0, VarOp.advance 300]).goal :=
  ⟨by with_unfolding_all decide, c1_not_animating_current_eq_goal 0
    [VarOp.setGoal 100 true 0, VarOp.advance 300] (by with_unfolding_all decide)⟩

/-! ## Claim C2 -/

/-- Under a constant clock, one scalar's threaded tick coincides with the
shared-instant tick. -/
theorem tickC_constClock {α : Type} [Lerp α] (v : AnimatedVar α) (n : ℤ) (k : ℕ) :
    (v.tickC (constClock n) k).1 = (v.tickAt n).1 ∧
      (v.tickC (constClock n) k).2.2 = (v.tickAt n).2 := by
  unfold AnimatedVar.tickC
  split_ifs with h
  · rw [AnimatedVar.tickAt, if_pos h]
    exact ⟨rfl, rfl⟩
  · exact ⟨rfl, rfl⟩

/-- Under a constant clock, a geometry's threaded tick coincides with the
shared-instant tick. -/
theorem geo_tickC_constClock (g : AnimatedGeometry) (n : ℤ) (k : ℕ) :
    (g.tickC (constClock n) k).1 = (g.tickSharedAt n).1 ∧
      (g.tickC (constClock n) k).2.2 = (g.tickSharedAt n).2 := by
  simp only [AnimatedGeometry.tickC, AnimatedGeometry.tickSharedAt]
  obtain ⟨ha1, ha2⟩ := tickC_constClock g.x n k
  obtain ⟨hb1, hb2⟩ := tickC_constClock g.y n (g.x.tickC (constClock n) k).2.1
  obtain ⟨hc1, hc2⟩ := tickC_constClock g.width n
    (g.y.tickC (constClock n) (g.x.tickC (constClock n) k).2.1).2.1
  rw [ha1, ha2, hb1, hb2, hc1, hc2]
  obtain ⟨hd1, hd2⟩ := tickC_constClock g.height n _
  rw [hd1, hd2]
  obtain ⟨he1, he2⟩ := tickC_constClock g.scale n _
  rw [he1, he2]
  obtain ⟨hf1, hf2⟩ := tickC_constClock g.alpha n _
  rw [hf1, hf2]
  exact ⟨rfl, rfl⟩

/-- Under a constant clock, a tree's threaded tick pass coincides with
the shared-instant pass. -/
theorem tree_tickAnimation_constClock (t : Tree) (n : ℤ) :
    ∀ k : ℕ, (t.tickAnimation (constClock n) k).1 = (t.tickSharedAt n).1 ∧
      (t.tickAnimation (constClock n) k).2.2 = (t.tickSharedAt n).2 := by
  induction t with
  | leaf w g ps pf =>
    intro k
    simp only [Tree.tickAnimation, Tree.tickSharedAt]
    obtain ⟨h1, h2⟩ := geo_tickC_constClock g n k
    rw [h1, h2]
    exact ⟨rfl, rfl⟩
  | split d ρ l g c0 c1 ih0 ih1 =>
    intro k
    simp only [Tree.tickAnimation, Tree.tickSharedAt]
    obtain ⟨h1, h2⟩ := geo_tickC_constClock g n k
    obtain ⟨h01, h02⟩ := ih0 (g.tickC (constClock n) k).2.1
    obtain ⟨h11, h12⟩ := ih1
      (c0.tickAnimation (constClock n) (g.tickC (constClock n) k).2.1).2.1
    rw [h1, h2, h01, h02, h11, h12]
    exact ⟨rfl, rfl⟩

/-- C2 (counterexample): the x and y scalars of `c2State`'s only node
start in identical states, yet one advance pass under a clock whose
successive samples differ 150 ms leaves them in different states (x at
50, y snapped to its goal 100) — while any shared-instant pass keeps two
identical scalars identical.  So the source's advance does not tick every
scalar of one pass against the same instant: each `tick` samples the
clock itself. -/
theorem c2_counterexample :
    c2Geo.x = c2Geo.y ∧
    ((c2State.tickAnimations c2Clock 0).1.getViewGeometry 7 =
      some { x := 50, y := 100, width := 100, height := 100 }) ∧
    (∀ n : ℤ, (c2Geo.tickSharedAt n).1.x = (c2Geo.tickSharedAt n).1.y) :=
  ⟨rfl, by with_unfolding_all decide, fun n => rfl⟩

/-- C2 (amended): each animating scalar samples the clock at its own tick
call, so a pass is deterministic given the sequence of sampled instants;
when all samples of a pass return one instant, the pass coincides with
the spec's shared-instant advance. -/
theorem c2_constant_clock_shared_instant (s : TileTree) (n : ℤ) (k : ℕ) :
    (s.tickAnimations (constClock n) k).1 = (s.tickSharedAt n).1 ∧
      (s.tickAnimations (constClock n) k).2.2 = (s.tickSharedAt n).2 := by
  cases hr : s.root with
  | none =>
    constructor <;> simp [TileTree.tickAnimations, TileTree.tickSharedAt, hr]
  | some r =>
    obtain ⟨h1, h2⟩ := tree_tickAnimation_constClock r n k
    constructor
    · simp [TileTree.tickAnimations, TileTree.tickSharedAt, hr, h1]
    · simp [TileTree.tickAnimations, TileTree.tickSharedAt, hr, h2]

/-! ## Claim C3 -/

/-- `set` always stores the requested goal. -/
theorem AnimatedVar.set_goal {α : Type} (v : AnimatedVar α) (g : α)
    (animate : Bool) (now : ℤ) : (v.set g animate now).goal = g := by
  unfold AnimatedVar.set
  split_ifs <;> rfl

/-- `setGoal` stores the requested rectangle as the goal. -/
theorem AnimatedGeometry.setGoalC_goal (g : AnimatedGeometry) (geo : Geometry)
    (animate : Bool) (c : Clock) (k : ℕ) :
    ((g.setGoalC geo animate c k).1).goal = geo := by
  simp only [AnimatedGeometry.setGoalC, AnimatedGeometry.goal, AnimatedVar.setC,
    AnimatedVar.set_goal]

/-- Every `applyLayout` call stores its `bounds` argument as the node's
goal rectangle. -/
theorem Tree.applyLayout_goal (t : Tree) (bounds : Geometry) (gapIn gapOut : ℤ)
    (preserve : Bool) (mult : ℚ) (animate : Bool) (c : Clock) (k : ℕ) :
    ((t.applyLayout bounds gapIn gapOut preserve mult animate c k).1).geo.goal =
      bounds := by
  cases t <;>
    simp only [Tree.applyLayout, Tree.geo, AnimatedGeometry.setGoalC_goal]

/-- Truncation toward zero agrees with `floor` on non-negative values. -/
theorem qtrunc_eq_floor (q : ℚ) (h : 0 ≤ q) : qtrunc q = ⌊q⌋ :=
  if_pos h

theorem Tree.nodeAt_nil (t : Tree) : t.nodeAt [] = some t := by
  cases t <;> rfl

theorem Tree.nodeAt_split_false (d : SplitDir) (ρ : ℚ) (l : Bool)
    (g : AnimatedGeometry) (c0 c1 : Tree) (p : List Bool) :
    (Tree.split d ρ l g c0 c1).nodeAt (false :: p) = c0.nodeAt p := rfl

theorem Tree.nodeAt_split_true (d : SplitDir) (ρ : ℚ) (l : Bool)
    (g : AnimatedGeometry) (c0 c1 : Tree) (p : List Bool) :
    (Tree.split d ρ l g c0 c1).nodeAt (true :: p) = c1.nodeAt p := rfl

set_option maxRecDepth 100000 in
/-- C3: on every split node, `applyLayout` partitions the bounds minus
`gapIn` along the chosen axis by the node's ratio: child one's extent is
`⌊available × ratio⌋`, child two's extent is the remainder and child two
starts at child one's end plus `gapIn`.  Concretely, inserting two
windows into an empty default tree (bounds `{0,0,1920,1080}`, gapIn 5,
gapOut 10, ratio 0.5, horizontal split) yields disjoint goal rectangles
with `w1 + w2 + gapIn = 1920 − 2×gapOut` and `|w1 − w2| ≤ 1`. -/
theorem c3_applyLayout_partition (d : SplitDir) (ρ : ℚ) (l : Bool)
    (g : AnimatedGeometry) (c0 c1 : Tree) (bounds : Geometry) (gapIn gapOut : ℤ)
    (preserve : Bool) (mult : ℚ) (animate : Bool) (c : Clock) (k : ℕ)
    (hρ : 0 ≤ ρ) (hw : 0 ≤ bounds.width - gapIn) (hh : 0 ≤ bounds.height - gapIn) :
    (((Tree.split d ρ l g c0 c1).applyLayout bounds gapIn gapOut preserve mult
        animate c k).1.dirOf = SplitDir.HORIZONTAL →
      ∃ n0 n1,
        ((Tree.split d ρ l g c0 c1).applyLayout bounds gapIn gapOut preserve mult
          animate c k).1.nodeAt [false] = some n0 ∧
        ((Tree.split d ρ l g c0 c1).applyLayout bounds gapIn gapOut preserve mult
          animate c k).1.nodeAt [true] = some n1 ∧
        n0.geo.goal = Geometry.mk bounds.x bounds.y
          ⌊((bounds.width - gapIn : ℤ) : ℚ) * ρ⌋ bounds.height ∧
        n1.geo.goal = Geometry.mk
          (bounds.x + ⌊((bounds.width - gapIn : ℤ) : ℚ) * ρ⌋ + gapIn) bounds.y
          ((bounds.width - gapIn) - ⌊((bounds.width - gapIn : ℤ) : ℚ) * ρ⌋)
          bounds.height) ∧
    (((Tree.split d ρ l g c0 c1).applyLayout bounds gapIn gapOut preserve mult
        animate c k).1.dirOf = SplitDir.VERTICAL →
      ∃ n0 n1,
        ((Tree.split d ρ l g c0 c1).applyLayout bounds gapIn gapOut preserve mult
          animate c k).1.nodeAt [false] = some n0 ∧
        ((Tree.split d ρ l g c0 c1).applyLayout bounds gapIn gapOut preserve mult
          animate c k).1.nodeAt [true] = some n1 ∧
        n0.geo.goal = Geometry.mk bounds.x bounds.y bounds.width
          ⌊((bounds.height - gapIn : ℤ) : ℚ) * ρ⌋ ∧
        n1.geo.goal = Geometry.mk bounds.x
          (bounds.y + ⌊((bounds.height - gapIn : ℤ) : ℚ) * ρ⌋ + gapIn)
          bounds.width
          ((bounds.height - gapIn) - ⌊((bounds.height - gapIn : ℤ) : ℚ) * ρ⌋)) ∧
    (∃ g1 g2, c3Scenario.getViewGoalGeometry 1 = some g1 ∧
      c3Scenario.getViewGoalGeometry 2 = some g2 ∧
      g1.disjoint g2 ∧
      g1.width + g2.width + 5 = 1920 - 2 * 10 ∧
      g1.width - g2.width ≤ 1 ∧ g2.width - g1.width ≤ 1 ∧
      Option.map Tree.dirOf c3Scenario.root = some SplitDir.HORIZONTAL) := by
  have htr : ∀ a : ℤ, 0 ≤ a → qtrunc ((a : ℚ) * ρ) = ⌊((a : ℤ) : ℚ) * ρ⌋ := by
    intro a ha
    exact qtrunc_eq_floor _ (mul_nonneg (by exact_mod_cast ha) hρ)
  refine ⟨?_, ?_, ?_⟩
  · intro hdir
    simp only [Tree.applyLayout, Tree.dirOf] at hdir
    simp only [Tree.applyLayout, hdir, reduceIte, Tree.nodeAt_split_false,
      Tree.nodeAt_split_true, Tree.nodeAt_nil]
    refine ⟨_, _, rfl, rfl, ?_, ?_⟩
    · rw [Tree.applyLayout_goal]
      simp [htr _ hw]
      exact qtrunc_eq_floor _ (mul_nonneg (by exact_mod_cast hw) hρ)
    · rw [Tree.applyLayout_goal]
      simp [htr _ hw]
      exact qtrunc_eq_floor _ (mul_nonneg (by exact_mod_cast hw) hρ)
  · intro hdir
    simp only [Tree.applyLayout, Tree.dirOf] at hdir
    simp only [Tree.applyLayout, hdir, reduceIte, Tree.nodeAt_split_false,
      Tree.nodeAt_split_true, Tree.nodeAt_nil]
    refine ⟨_, _, rfl, rfl, ?_, ?_⟩
    · rw [Tree.applyLayout_goal]
      simp [htr _ hh]
      exact qtrunc_eq_floor _ (mul_nonneg (by exact_mod_cast hh) hρ)
    · rw [Tree.applyLayout_goal]
      simp [htr _ hh]
      exact qtrunc_eq_floor _ (mul_nonneg (by exact_mod_cast hh) hρ)
  · refine ⟨{ x := 10, y := 10, width := 947, height := 1060 },
      { x := 962, y := 10, width := 948, height := 1060 },
      ?_, ?_, ?_, ?_, ?_, ?_, ?_⟩
    · with_unfolding_all decide
    · with_unfolding_all decide
    · with_unfolding_all decide
    · decide
    · decide
    · decide
    · with_unfolding_all decide

/-- Witness for C3: the partition theorem applied to a concrete split of
`{10,10,1900,1060}` with ratio 0.5 and gaps 5/10; the scenario conjunct
exhibits the two goal rectangles. -/
theorem c3_witness :
    (0 ≤ (1 / 2 : ℚ)) ∧ ((0 : ℤ) ≤ (Geometry.mk 10 10 1900 1060).width - 5) ∧
    ((0 : ℤ) ≤ (Geometry.mk 10 10 1900 1060).height - 5) ∧
    (∃ g1 g2, c3Scenario.getViewGoalGeometry 1 = some g1 ∧
      c3Scenario.getViewGoalGeometry 2 = some g2 ∧
      g1.disjoint g2 ∧
      g1.width + g2.width + 5 = 1920 - 2 * 10 ∧
      g1.width - g2.width ≤ 1 ∧ g2.width - g1.width ≤ 1 ∧
      Option.map Tree.dirOf c3Scenario.root = some SplitDir.HORIZONTAL) :=
  ⟨by norm_num, by decide, by decide,
    (c3_applyLayout_partition SplitDir.HORIZONTAL (1 / 2) false {}
      (Tree.leaf 1 {} false (Geometry.mk 0 0 0 0))
      (Tree.leaf 2 {} false (Geometry.mk 0 0 0 0))
      (Geometry.mk 10 10 1900 1060) 5 10 false 1 true (constClock 0) 0
      (by norm_num) (by decide) (by decide)).2.2⟩

/-! ## Claim C8 -/

/-- A tree that does not contain a view yields no path for it. -/
theorem Tree.findPath_eq_none (r : Tree) (v : ℕ) (h : r.hasViewT v = false) :
    r.findPath v = none := by
  cases hp : r.findPath v with
  | none => rfl
  | some p =>
    have := Tree.findPath_isSome r v
    rw [hp, h] at this
    simp at this

/-- A tree that does not contain a view yields no leaf for it. -/
theorem Tree.findViewT_eq_none (r : Tree) (v : ℕ) (h : r.hasViewT v = false) :
    r.findViewT v = none := by
  cases hp : r.findViewT v with
  | none => rfl
  | some n =>
    unfold Tree.hasViewT at h
    rw [hp] at h
    simp at h

/-- C8: for every tree state and every window handle not present in the
tree (including the empty tree), remove and message leave the state
completely unchanged and the geometry queries return none, while
`hasView` (contains) reports false. -/
theorem c8_unknown_handle_noop (s : TileTree) (v : ℕ) (animate : Bool)
    (c : Clock) (k : ℕ) (msg : String) (extGeo : Geometry)
    (h : s.hasView v = false) :
    s.removeView v animate c k = (s, k) ∧
    s.handleLayoutMessage msg (some v) extGeo c k = (s, k) ∧
    s.getViewGeometry v = none ∧
    s.getViewGoalGeometry v = none ∧
    s.hasView v = false := by
  unfold TileTree.hasView at h
  cases hr : s.root with
  | none =>
    refine ⟨?_, ?_, ?_, ?_, ?_⟩ <;>
      simp [TileTree.removeView, TileTree.handleLayoutMessage,
        TileTree.getViewGeometry, TileTree.getViewGoalGeometry, TileTree.hasView, hr]
  | some r =>
    rw [hr] at h
    have hfp := Tree.findPath_eq_none r v h
    have hfv := Tree.findViewT_eq_none r v h
    refine ⟨?_, ?_, ?_, ?_, ?_⟩
    · simp [TileTree.removeView, hr, Tree.hasViewT, hfv]
    · simp [TileTree.handleLayoutMessage, hr, hfp]
    · simp [TileTree.getViewGeometry, hr, hfv]
    · simp [TileTree.getViewGoalGeometry, hr, hfv]
    · simp [TileTree.hasView, hr, Tree.hasViewT, hfv]

/-- Witness for C8 on the empty tree, handle 9 and the toggle-split
message. -/
theorem c8_witness :
    (({} : TileTree).hasView 9 = false) ∧
    (({} : TileTree).removeView 9 true (constClock 0) 0 = ({}, 0) ∧
      ({} : TileTree).handleLayoutMessage "togglesplit" (some 9)
        (Geometry.mk 0 0 0 0) (constClock 0) 0 = ({}, 0) ∧
      ({} : TileTree).getViewGeometry 9 = none ∧
      ({} : TileTree).getViewGoalGeometry 9 = none ∧
      ({} : TileTree).hasView 9 = false) :=
  ⟨rfl, c8_unknown_handle_noop {} 9 true (constClock 0) 0 "togglesplit"
    (Geometry.mk 0 0 0 0) rfl⟩

/-! ## Claim C4 -/

theorem sibPath_single (b : Bool) : sibPath [b] = [!b] := rfl

theorem sibPath_cons (a b : Bool) (p : List Bool) :
    sibPath (a :: b :: p) = a :: sibPath (b :: p) := rfl

theorem parPath_single (b : Bool) : parPath [b] = [] := rfl

theorem parPath_cons (a b : Bool) (p : List Bool) :
    parPath (a :: b :: p) = a :: parPath (b :: p) := rfl

/-- A found path witnesses containment. -/
theorem Tree.hasViewT_of_findPath (r : Tree) (v : ℕ) (p : List Bool)
    (h : r.findPath v = some p) : r.hasViewT v = true := by
  rw [← Tree.findPath_isSome r v, h]
  rfl

/-- A failed path search witnesses absence. -/
theorem Tree.hasViewT_false_of_findPath_none (r : Tree) (v : ℕ)
    (h : r.findPath v = none) : r.hasViewT v = false := by
  rw [← Tree.findPath_isSome r v, h]
  rfl

/-- The only node whose search path is empty is the owning leaf itself. -/
theorem Tree.findPath_nil_leaf (r : Tree) (v : ℕ) (h : r.findPath v = some []) :
    ∃ g ps pf, r = Tree.leaf v g ps pf := by
  cases r with
  | leaf w g ps pf =>
    unfold findPath at h
    by_cases hw : w = v
    · subst hw
      exact ⟨g, ps, pf, rfl⟩
    · rw [if_neg hw] at h
      cases h
  | split d ρ l g c0 c1 =>
    unfold findPath at h
    cases h0 : c0.findPath v with
    | some p0 =>
      rw [h0] at h
      simp at h
    | none =>
      rw [h0] at h
      cases h1 : c1.findPath v with
      | some p1 =>
        rw [h1] at h
        simp at h
      | none =>
        rw [h1] at h
        cases h

/-- The functional content of the source's removal surgery: for a view
owned by a non-root leaf (path `p`), the leaf's sibling subtree replaces
the leaf's parent — in the grandparent's slot for a deeper parent, or as
the whole (sub)tree when the parent was the root. -/
theorem Tree.removeFirst_sibling (v : ℕ) (r : Tree) :
    ∀ (p : List Bool), r.findPath v = some p → p ≠ [] →
      ∃ sib, r.nodeAt (sibPath p) = some sib ∧
        r.removeFirstAux v = some (r.replaceAt (parPath p) sib) := by
  induction r with
  | leaf w g ps pf =>
    intro p h hne
    unfold findPath at h
    by_cases hw : w = v
    · rw [if_pos hw] at h
      injection h with h'
      exact absurd h'.symm hne
    · rw [if_neg hw] at h
      cases h
  | split d ρ l g c0 c1 ih0 ih1 =>
    intro p h hne
    unfold findPath at h
    cases h0 : c0.findPath v with
    | some p0 =>
      rw [h0] at h
      injection h with h'
      subst h'
      have hc0 : c0.hasViewT v = true := Tree.hasViewT_of_findPath c0 v p0 h0
      cases p0 with
      | nil =>
        obtain ⟨g', ps', pf', hc0eq⟩ := Tree.findPath_nil_leaf c0 v h0
        refine ⟨c1, ?_, ?_⟩
        · rw [sibPath_single]
          simp [Tree.nodeAt_split_true, Tree.nodeAt_nil]
        · rw [parPath_single]
          subst hc0eq
          simp [Tree.removeFirstAux, Tree.hasViewT_leaf, Tree.replaceAt]
      | cons b p0' =>
        obtain ⟨sib, hsib, hrem⟩ := ih0 (b :: p0') h0 (by simp)
        refine ⟨sib, ?_, ?_⟩
        · rw [sibPath_cons, Tree.nodeAt_split_false]
          exact hsib
        · rw [parPath_cons]
          simp only [Tree.removeFirstAux, hc0, if_true, hrem, Tree.replaceAt]
          simp
    | none =>
      rw [h0] at h
      have hc0f : c0.hasViewT v = false := Tree.hasViewT_false_of_findPath_none c0 v h0
      cases h1 : c1.findPath v with
      | some p1 =>
        rw [h1] at h
        injection h with h'
        subst h'
        cases p1 with
        | nil =>
          obtain ⟨g', ps', pf', hc1eq⟩ := Tree.findPath_nil_leaf c1 v h1
          refine ⟨c0, ?_, ?_⟩
          · rw [sibPath_single]
            simp [Tree.nodeAt_split_false, Tree.nodeAt_nil]
          · rw [parPath_single]
            subst hc1eq
            simp [Tree.removeFirstAux, hc0f, Tree.hasViewT_leaf, Tree.replaceAt]
        | cons b p1' =>
          obtain ⟨sib, hsib, hrem⟩ := ih1 (b :: p1') h1 (by simp)
          refine ⟨sib, ?_, ?_⟩
          · rw [sibPath_cons, Tree.nodeAt_split_true]
            exact hsib
          · rw [parPath_cons]
            simp only [Tree.removeFirstAux, hc0f, Bool.false_eq_true, if_false,
              hrem, Tree.replaceAt]
            simp
      | none =>
        rw [h1] at h
        cases h

/-- Removal of one view's first leaf does not affect membership of any
other view. -/
theorem Tree.removeFirstAux_hasViewT (v v' : ℕ) (hne : v' ≠ v) (r : Tree) :
    r.hasViewT v = true →
      (match r.removeFirstAux v with
       | none => false
       | some r' => r'.hasViewT v') = r.hasViewT v' := by
  induction r with
  | leaf w g ps pf =>
    intro h
    rw [Tree.hasViewT_leaf] at h
    have hw : w = v := by simpa using h
    subst hw
    simp only [Tree.removeFirstAux, Tree.hasViewT_leaf]
    have : ¬(w = v') := fun hv => hne (hv.symm)
    simp [this]
  | split d ρ l g c0 c1 ih0 ih1 =>
    intro h
    rw [Tree.hasViewT_split] at h
    by_cases hc0 : c0.hasViewT v = true
    · have hm := ih0 hc0
      simp only [Tree.removeFirstAux, hc0, if_true]
      cases hr0 : c0.removeFirstAux v with
      | none =>
        rw [hr0] at hm
        simp only at hm
        simp [Tree.hasViewT_split, ← hm]
      | some c0' =>
        rw [hr0] at hm
        simp only at hm
        simp [Tree.hasViewT_split, hm]
    · have hc0f : c0.hasViewT v = false := by simpa using hc0
      have hc1 : c1.hasViewT v = true := by
        rw [hc0f] at h
        simpa using h
      have hm := ih1 hc1
      simp only [Tree.removeFirstAux, hc0f, Bool.false_eq_true, if_false]
      cases hr1 : c1.removeFirstAux v with
      | none =>
        rw [hr1] at hm
        simp only at hm
        simp [Tree.hasViewT_split, ← hm]
      | some c1' =>
        rw [hr1] at hm
        simp only at hm
        simp [Tree.hasViewT_split, hm]

/-- `applyLayout` only rewrites geometry: membership is untouched. -/
theorem Tree.applyLayout_hasViewT (v : ℕ) (t : Tree) :
    ∀ (bounds : Geometry) (gapIn gapOut : ℤ) (preserve : Bool) (mult : ℚ)
      (animate : Bool) (c : Clock) (k : ℕ),
      ((t.applyLayout bounds gapIn gapOut preserve mult animate c k).1).hasViewT v =
        t.hasViewT v := by
  induction t with
  | leaf w g ps pf =>
    intro bounds gapIn gapOut preserve mult animate c k
    simp [Tree.applyLayout, Tree.hasViewT_leaf]
  | split d ρ l g c0 c1 ih0 ih1 =>
    intro bounds gapIn gapOut preserve mult animate c k
    simp only [Tree.applyLayout, Tree.hasViewT_split, ih0, ih1]

/-- C4: removing a contained window: a sole root leaf empties the tree
and returns; otherwise the owning leaf's sibling replaces the parent (as
new root when the parent was the root — path of length one — or in the
grandparent's slot) and layout is recalculated; every other window stays
in the tree. -/
theorem c4_removeView_structure (s : TileTree) (r : Tree) (v : ℕ)
    (animate : Bool) (c : Clock) (k : ℕ) (p : List Bool)
    (hroot : s.root = some r) (hfind : r.findPath v = some p) :
    (p = [] → s.removeView v animate c k = ({ s with root := none }, k)) ∧
    (p ≠ [] → ∃ sib, r.nodeAt (sibPath p) = some sib ∧
      s.removeView v animate c k =
        TileTree.recalculateLayout
          { s with root := some (r.replaceAt (parPath p) sib) } animate c k) ∧
    (∀ v', v' ≠ v →
      (s.removeView v animate c k).1.hasView v' = s.hasView v') := by
  have hview : r.hasViewT v = true := Tree.hasViewT_of_findPath r v p hfind
  refine ⟨?_, ?_, ?_⟩
  · intro hp
    subst hp
    obtain ⟨g', ps', pf', hleaf⟩ := Tree.findPath_nil_leaf r v hfind
    subst hleaf
    simp [TileTree.removeView, hroot, Tree.hasViewT_leaf, Tree.removeFirstAux]
  · intro hp
    obtain ⟨sib, hsib, hrem⟩ := Tree.removeFirst_sibling v r p hfind hp
    refine ⟨sib, hsib, ?_⟩
    simp [TileTree.removeView, hroot, hview, hrem]
  · intro v' hv'
    have hmem := Tree.removeFirstAux_hasViewT v v' hv' r hview
    simp only [TileTree.removeView, hroot, hview, if_true]
    cases hrem : r.removeFirstAux v with
    | none =>
      rw [hrem] at hmem
      simp only at hmem
      simp [TileTree.hasView, hroot, ← hmem]
    | some r' =>
      rw [hrem] at hmem
      simp only at hmem
      simp only [TileTree.recalculateLayout]
      simp [TileTree.hasView, hroot, Tree.applyLayout_hasViewT, hmem]

/-- Witness for C4: removing window 2 from the two-window tree promotes
window 1's leaf (the sibling) to the root. -/
theorem c4_witness :
    (twoLeafState.root = some twoLeafTree ∧
      twoLeafTree.findPath 2 = some [true]) ∧
    (([true] : List Bool) = [] →
      twoLeafState.removeView 2 true (constClock 0) 0 = ({ twoLeafState with root := none }, 0)) ∧
    (([true] : List Bool) ≠ [] → ∃ sib, twoLeafTree.nodeAt (sibPath [true]) = some sib ∧
      twoLeafState.removeView 2 true (constClock 0) 0 =
        TileTree.recalculateLayout
          { twoLeafState with root := some (twoLeafTree.replaceAt (parPath [true]) sib) }
          true (constClock 0) 0) ∧
    (∀ v', v' ≠ 2 →
      (twoLeafState.removeView 2 true (constClock 0) 0).1.hasView v' =
        twoLeafState.hasView v') :=
  ⟨⟨rfl, rfl⟩,
    (c4_removeView_structure twoLeafState twoLeafTree 2 true (constClock 0) 0
      [true] rfl rfl).1,
    (c4_removeView_structure twoLeafState twoLeafTree 2 true (constClock 0) 0
      [true] rfl rfl).2.1,
    (c4_removeView_structure twoLeafState twoLeafTree 2 true (constClock 0) 0
      [true] rfl rfl).2.2⟩

/-! ## Claim C6 -/

theorem Tree.replaceAt_nil (t n : Tree) : t.replaceAt [] n = n := by
  cases t <;> rfl

theorem Tree.replaceAt_split_false (d : SplitDir) (ρ : ℚ) (l : Bool)
    (g : AnimatedGeometry) (c0 c1 : Tree) (p : List Bool) (n : Tree) :
    (Tree.split d ρ l g c0 c1).replaceAt (false :: p) n =
      Tree.split d ρ l g (c0.replaceAt p n) c1 := rfl

theorem Tree.replaceAt_split_true (d : SplitDir) (ρ : ℚ) (l : Bool)
    (g : AnimatedGeometry) (c0 c1 : Tree) (p : List Bool) (n : Tree) :
    (Tree.split d ρ l g c0 c1).replaceAt (true :: p) n =
      Tree.split d ρ l g c0 (c1.replaceAt p n) := rfl

theorem parPath_eq_dropLast (p : List Bool) : parPath p = p.dropLast := by
  induction p with
  | nil => rfl
  | cons a p ih =>
    cases p with
    | nil => rfl
    | cons b p' =>
      rw [parPath_cons]
      rw [ih]
      rfl

/-- Replacement is visible at its own path. -/
theorem Tree.nodeAt_replaceAt (q : List Bool) :
    ∀ (t n : Tree), (t.nodeAt q).isSome = true →
      (t.replaceAt q n).nodeAt q = some n := by
  induction q with
  | nil =>
    intro t n _
    rw [Tree.replaceAt_nil, Tree.nodeAt_nil]
  | cons b q' ih =>
    intro t n h
    cases t with
    | leaf w g ps pf => simp [Tree.nodeAt] at h
    | split d ρ l g c0 c1 =>
      cases b with
      | false =>
        rw [Tree.nodeAt_split_false] at h
        rw [Tree.replaceAt_split_false, Tree.nodeAt_split_false]
        exact ih c0 n h
      | true =>
        rw [Tree.nodeAt_split_true] at h
        rw [Tree.replaceAt_split_true, Tree.nodeAt_split_true]
        exact ih c1 n h

/-- `applyLayout` preserves a locked node's lock and direction at every
path. -/
theorem Tree.applyLayout_locked (t : Tree) :
    ∀ (q : List Bool) (n : Tree), t.nodeAt q = some n → n.lockedOf = true →
      ∀ (bounds : Geometry) (gapIn gapOut : ℤ) (preserve : Bool) (mult : ℚ)
        (animate : Bool) (c : Clock) (k : ℕ),
      ∃ n', ((t.applyLayout bounds gapIn gapOut preserve mult animate c k).1).nodeAt q =
          some n' ∧ n'.lockedOf = true ∧ n'.dirOf = n.dirOf := by
  induction t with
  | leaf w g ps pf =>
    intro q n hq hl bounds gapIn gapOut preserve mult animate c k
    cases q with
    | nil =>
      rw [Tree.nodeAt_nil] at hq
      injection hq with h'
      subst h'
      simp [Tree.lockedOf] at hl
    | cons b q' => simp [Tree.nodeAt] at hq
  | split d ρ l g c0 c1 ih0 ih1 =>
    intro q n hq hl bounds gapIn gapOut preserve mult animate c k
    cases q with
    | nil =>
      rw [Tree.nodeAt_nil] at hq
      injection hq with h'
      subst h'
      have hl' : l = true := hl
      subst hl'
      refine ⟨_, Tree.nodeAt_nil _, ?_, ?_⟩
      · simp [Tree.applyLayout, Tree.lockedOf]
      · simp [Tree.applyLayout, Tree.dirOf]
    | cons b q' =>
      cases b with
      | false =>
        rw [Tree.nodeAt_split_false] at hq
        simp only [Tree.applyLayout, Tree.nodeAt_split_false]
        exact ih0 q' n hq hl _ _ _ _ _ _ _ _
      | true =>
        rw [Tree.nodeAt_split_true] at hq
        simp only [Tree.applyLayout, Tree.nodeAt_split_true]
        exact ih1 q' n hq hl _ _ _ _ _ _ _ _

/-- Arbitrary sequences of layout passes preserve a locked node's lock
and direction. -/
theorem applyCalls_locked_dir (q : List Bool) (d0 : SplitDir)
    (calls : List LayoutCall) :
    ∀ (t n : Tree), t.nodeAt q = some n → n.lockedOf = true → n.dirOf = d0 →
      ∃ n2, (applyCalls calls t).nodeAt q = some n2 ∧ n2.lockedOf = true ∧
        n2.dirOf = d0 := by
  induction calls with
  | nil =>
    intro t n h hl hd
    exact ⟨n, h, hl, hd⟩
  | cons cl rest ih =>
    intro t n h hl hd
    obtain ⟨n', h1, h2, h3⟩ := Tree.applyLayout_locked t q n h hl cl.bounds
      cl.gapIn cl.gapOut cl.preserve cl.mult cl.animate cl.clock cl.cursor
    exact ih _ n' h1 h2 (h3.trans hd)

/-- C6: a toggle-split message for a window whose leaf has a parent flips
that parent's direction and sets its lock, and afterwards no
`applyLayout` call — for any bounds, gaps, flags, multiplier or clock,
and any number of passes — ever changes that node's direction again. -/
theorem c6_toggle_split_locks (s : TileTree) (r : Tree) (v : ℕ)
    (extGeo : Geometry) (c : Clock) (k : ℕ) (p : List Bool) (d : SplitDir)
    (ρ : ℚ) (l : Bool) (g : AnimatedGeometry) (c0 c1 : Tree)
    (hroot : s.root = some r) (hfind : r.findPath v = some p) (hne : p ≠ [])
    (hparent : r.nodeAt (parPath p) = some (Tree.split d ρ l g c0 c1)) :
    ∃ r1, (s.handleLayoutMessage "togglesplit" (some v) extGeo c k).1.root =
        some r1 ∧
      (∃ n1, r1.nodeAt (parPath p) = some n1 ∧ n1.dirOf = d.flip ∧
        n1.lockedOf = true) ∧
      (∀ calls : List LayoutCall, ∃ n2,
        (applyCalls calls r1).nodeAt (parPath p) = some n2 ∧
        n2.dirOf = d.flip ∧ n2.lockedOf = true) := by
  have hq := parPath_eq_dropLast p
  rw [hq] at hparent
  have hbase : (r.replaceAt p.dropLast
      (Tree.split d.flip ρ true g c0 c1)).nodeAt p.dropLast =
      some (Tree.split d.flip ρ true g c0 c1) := by
    apply Tree.nodeAt_replaceAt
    rw [hparent]
    rfl
  have hmsg : s.handleLayoutMessage "togglesplit" (some v) extGeo c k =
      TileTree.recalculateLayout
        { s with root := some (r.replaceAt p.dropLast
            (Tree.split d.flip ρ true g c0 c1)) } true c k := by
    simp [TileTree.handleLayoutMessage, hroot, hfind, hne, hparent]
  obtain ⟨n1, hn1, hn1l, hn1d⟩ := Tree.applyLayout_locked
    (r.replaceAt p.dropLast (Tree.split d.flip ρ true g c0 c1)) p.dropLast
    (Tree.split d.flip ρ true g c0 c1) hbase rfl
    ({ s with root := some (r.replaceAt p.dropLast
        (Tree.split d.flip ρ true g c0 c1)) } : TileTree).effectiveBounds
    s.gapIn s.gapOut s.preserveSplit s.splitWidthMultiplier true c k
  have hroot1 : (s.handleLayoutMessage "togglesplit" (some v) extGeo c k).1.root =
      some (((r.replaceAt p.dropLast (Tree.split d.flip ρ true g c0 c1)).applyLayout
        ({ s with root := some (r.replaceAt p.dropLast
            (Tree.split d.flip ρ true g c0 c1)) } : TileTree).effectiveBounds
        s.gapIn s.gapOut s.preserveSplit s.splitWidthMultiplier true c k).1) := by
    rw [hmsg]
    simp [TileTree.recalculateLayout]
  refine ⟨_, hroot1, ⟨n1, ?_, ?_, hn1l⟩, ?_⟩
  · rw [hq]
    exact hn1
  · rw [hn1d]
    rfl
  · intro calls
    obtain ⟨n2, h1, h2, h3⟩ := applyCalls_locked_dir p.dropLast d.flip calls _ n1
      hn1 hn1l (by rw [hn1d]; rfl)
    rw [hq]
    exact ⟨n2, h1, h3, h2⟩

/-- Witness for C6: toggling the split at window 2's parent in the
two-window tree. -/
theorem c6_witness :
    (twoLeafState.root = some twoLeafTree ∧
      twoLeafTree.findPath 2 = some [true] ∧ ([true] : List Bool) ≠ [] ∧
      twoLeafTree.nodeAt (parPath [true]) =
        some (Tree.split SplitDir.HORIZONTAL (1 / 2) false {}
          (Tree.leaf 1 {} false (Geometry.mk 0 0 0 0))
          (Tree.leaf 2 {} false (Geometry.mk 0 0 0 0)))) ∧
    (∃ r1, (twoLeafState.handleLayoutMessage "togglesplit" (some 2)
        (Geometry.mk 0 0 0 0) (constClock 0) 0).1.root = some r1 ∧
      (∃ n1, r1.nodeAt (parPath [true]) = some n1 ∧
        n1.dirOf = SplitDir.HORIZONTAL.flip ∧ n1.lockedOf = true) ∧
      (∀ calls : List LayoutCall, ∃ n2,
        (applyCalls calls r1).nodeAt (parPath [true]) = some n2 ∧
        n2.dirOf = SplitDir.HORIZONTAL.flip ∧ n2.lockedOf = true)) :=
  ⟨⟨rfl, rfl, by decide, rfl⟩,
    c6_toggle_split_locks twoLeafState twoLeafTree 2 (Geometry.mk 0 0 0 0)
      (constClock 0) 0 [true] SplitDir.HORIZONTAL (1 / 2) false {}
      (Tree.leaf 1 {} false (Geometry.mk 0 0 0 0))
      (Tree.leaf 2 {} false (Geometry.mk 0 0 0 0)) rfl rfl (by decide) rfl⟩

/-! ## Claim C7 -/

/-- For the identity curve both bezier coordinates are the cubic
`3t² − 2t³`. -/
theorem idCurve_computeX (t : ℚ) : idCurve.computeX t = gPoly t := by
  show (3 : ℚ) * (1 - t) * (1 - t) * t * 0 + 3 * (1 - t) * t * t * 1 + t * t * t =
    3 * t ^ 2 - 2 * t ^ 3
  ring

theorem idCurve_computeY (t : ℚ) : idCurve.computeY t = gPoly t := by
  show (3 : ℚ) * (1 - t) * (1 - t) * t * 0 + 3 * (1 - t) * t * t * 1 + t * t * t =
    3 * t ^ 2 - 2 * t ^ 3
  ring

/-- One loop iteration of `findTForX` for the identity curve, with the
residual and derivative written through `gPoly`. -/
theorem findTLoop_id_succ (x t : ℚ) (n : ℕ) :
    BezierCurve.findTLoop idCurve x (n + 1) t =
      (if |gPoly t - x| < 1 / 10000 then t
       else if |6 * t * (1 - t)| < 1 / 10000 then t
       else BezierCurve.findTLoop idCurve x n
         (clampQ (t - (gPoly t - x) / (6 * t * (1 - t))) 0 1)) := by
  have h2 : 3 * (1 - t) * (1 - t) * idCurve.p1x +
      6 * (1 - t) * t * (idCurve.p2x - idCurve.p1x) +
      3 * t * t * (1 - idCurve.p2x) = 6 * t * (1 - t) := by
    show (3 : ℚ) * (1 - t) * (1 - t) * 0 + 6 * (1 - t) * t * (1 - 0) +
      3 * t * t * (1 - 1) = 6 * t * (1 - t)
    ring
  simp only [BezierCurve.findTLoop]
  rw [idCurve_computeX, h2]

/-- The quadratic-decrease certificate for one Newton step of `gPoly`:
with `a := t − h`, the slack factors as
`h·((t−h)(1−2t) + 2(t−h)(1−(t−h)) + t²)`. -/
theorem newton_half_aux (h t : ℚ) (hh0 : 0 ≤ h) (hht : h ≤ t) (ht : t ≤ 1 / 2) :
    h ^ 2 * (3 - 6 * t + 2 * h) ≤ h * (3 * t * (1 - t)) := by
  have ha : 0 ≤ t - h := by linarith
  have h1 : (0:ℚ) ≤ 1 - 2 * t := by linarith
  have h2 : (0:ℚ) ≤ 1 - (t - h) := by linarith
  nlinarith [mul_nonneg hh0 (mul_nonneg ha h1), mul_nonneg hh0 (mul_nonneg ha h2),
    mul_nonneg hh0 (sq_nonneg t)]

/-- One exact Newton step for `gPoly` from the region
`0 < t ≤ 1/2, gPoly t ≥ p`: the iterate stays in the region and the
residual at least halves. -/
theorem newton_step_id (t p : ℚ) (ht0 : 0 < t) (ht : t ≤ 1 / 2) (hp : 0 < p)
    (hd : 0 ≤ gPoly t - p) :
    0 < t - (gPoly t - p) / (6 * t * (1 - t)) ∧
    t - (gPoly t - p) / (6 * t * (1 - t)) ≤ t ∧
    0 ≤ gPoly (t - (gPoly t - p) / (6 * t * (1 - t))) - p ∧
    gPoly (t - (gPoly t - p) / (6 * t * (1 - t))) - p ≤ (gPoly t - p) / 2 := by
  have hderiv : 0 < 6 * t * (1 - t) := by nlinarith
  have hmul : (gPoly t - p) / (6 * t * (1 - t)) * (6 * t * (1 - t)) =
      gPoly t - p := div_mul_cancel₀ _ (ne_of_gt hderiv)
  have hh0 : 0 ≤ (gPoly t - p) / (6 * t * (1 - t)) :=
    div_nonneg hd (le_of_lt hderiv)
  have hht : (gPoly t - p) / (6 * t * (1 - t)) < t := by
    have hlt : (gPoly t - p) / (6 * t * (1 - t)) * (6 * t * (1 - t)) <
        t * (6 * t * (1 - t)) := by
      rw [hmul]
      have hG : gPoly t - p < t * (6 * t * (1 - t)) := by
        simp only [gPoly]
        nlinarith [sq_nonneg t, mul_pos ht0 ht0]
      exact hG
    exact lt_of_mul_lt_mul_right hlt (le_of_lt hderiv)
  have hkey : gPoly (t - (gPoly t - p) / (6 * t * (1 - t))) - p =
      ((gPoly t - p) / (6 * t * (1 - t))) ^ 2 *
        (3 - 6 * t + 2 * ((gPoly t - p) / (6 * t * (1 - t)))) := by
    simp only [gPoly] at hmul ⊢
    linear_combination (-1 : ℚ) * hmul
  refine ⟨by linarith, by linarith, ?_, ?_⟩
  · rw [hkey]
    have h3 : 0 ≤ 3 - 6 * t + 2 * ((gPoly t - p) / (6 * t * (1 - t))) := by
      linarith
    exact mul_nonneg (sq_nonneg _) h3
  · rw [hkey]
    have hhalf : (gPoly t - p) / (6 * t * (1 - t)) * (3 * t * (1 - t)) =
        (gPoly t - p) / 2 := by
      linear_combination (1 / 2 : ℚ) * hmul
    rw [← hhalf]
    exact newton_half_aux _ t hh0 (le_of_lt hht) ht

/-- The loop invariant of `findTForX` on the identity curve: from a
state `0 < t ≤ 1/2` with non-negative residual, the loop keeps the
residual non-negative and either meets the `1e-4` tolerance or halves the
residual once per remaining iteration; the small-derivative bail-out is
unreachable in this region. -/
theorem findTLoop_id_bound (p : ℚ) (hp : 0 < p) :
    ∀ (fuel : ℕ) (t : ℚ), 0 < t → t ≤ 1 / 2 → 0 ≤ gPoly t - p →
      0 ≤ gPoly (BezierCurve.findTLoop idCurve p fuel t) - p ∧
      gPoly (BezierCurve.findTLoop idCurve p fuel t) - p ≤
        max (1 / 10000) ((gPoly t - p) / 2 ^ fuel) := by
  intro fuel
  induction fuel with
  | zero =>
    intro t ht0 ht hd
    refine ⟨?_, ?_⟩
    · simpa [BezierCurve.findTLoop] using hd
    · simp only [BezierCurve.findTLoop, pow_zero]
      exact le_max_of_le_right (by linarith)
  | succ n ih =>
    intro t ht0 ht hd
    rw [findTLoop_id_succ]
    by_cases hbr : |gPoly t - p| < 1 / 10000
    · rw [if_pos hbr]
      refine ⟨hd, le_max_of_le_left ?_⟩
      rw [abs_of_nonneg hd] at hbr
      linarith
    · rw [if_neg hbr]
      have hge : 1 / 10000 ≤ gPoly t - p := by
        rw [abs_of_nonneg hd] at hbr
        linarith [not_lt.mp hbr]
      have hderivpos : 0 < 6 * t * (1 - t) := by nlinarith
      have hnd : ¬(|6 * t * (1 - t)| < 1 / 10000) := by
        rw [abs_of_pos hderivpos]
        intro hlt
        have h3t : 3 * t ≤ 6 * t * (1 - t) := by nlinarith
        have ht' : t < 1 / 30000 := by linarith
        have hgsmall : gPoly t ≤ 3 * t ^ 2 := by
          simp only [gPoly]
          nlinarith [le_of_lt ht0]
        have : gPoly t < 1 / 10000 := by nlinarith [le_of_lt ht0]
        linarith
      rw [if_neg hnd]
      obtain ⟨hu0, hut, hud, huh⟩ := newton_step_id t p ht0 ht hp hd
      have hcl : clampQ (t - (gPoly t - p) / (6 * t * (1 - t))) 0 1 =
          t - (gPoly t - p) / (6 * t * (1 - t)) := by
        unfold clampQ
        rw [if_neg (by linarith), if_neg (by linarith)]
      rw [hcl]
      obtain ⟨ih1, ih2⟩ := ih _ hu0 (le_trans hut ht) hud
      refine ⟨ih1, le_trans ih2 ?_⟩
      apply max_le_max (le_refl _)
      have hpow : (0:ℚ) < 2 ^ n := by positivity
      calc (gPoly (t - (gPoly t - p) / (6 * t * (1 - t))) - p) / 2 ^ n
          ≤ ((gPoly t - p) / 2) / 2 ^ n := by
            gcongr
        _ = (gPoly t - p) / 2 ^ (n + 1) := by
            rw [div_div, pow_succ]
            ring_nf

/-- The error bound of the full 8-iteration solve for the identity curve
on `0 < p ≤ 1/2`: the first iteration either meets the tolerance
immediately or lands at `t₁ = (4p+1)/6` with residual `2(1−2p)³/27`,
which the remaining 7 iterations reduce below
`max(1/10000, (2/27)/2⁷) = 1/1728 < 1/1000`. -/
theorem findTForX_id_err_left (p : ℚ) (hp0 : 0 < p) (hp2 : p ≤ 1 / 2) :
    |gPoly (BezierCurve.findTLoop idCurve p 8 p) - p| ≤ 1 / 1000 := by
  have h8 : (8 : ℕ) = 7 + 1 := rfl
  rw [h8, findTLoop_id_succ]
  by_cases hbr : |gPoly p - p| < 1 / 10000
  · rw [if_pos hbr]
    have := le_of_lt hbr
    linarith [abs_nonneg (gPoly p - p)]
  · rw [if_neg hbr]
    have hdx : gPoly p - p ≤ 0 := by
      simp only [gPoly]
      nlinarith [mul_nonneg (mul_nonneg (le_of_lt hp0)
        (by linarith : (0:ℚ) ≤ 1 - p)) (by linarith : (0:ℚ) ≤ 1 - 2 * p)]
    have habs : |gPoly p - p| = p - gPoly p := by
      rw [abs_of_nonpos hdx]
      ring
    have hge : 1 / 10000 ≤ p - gPoly p := by
      rw [habs] at hbr
      linarith [not_lt.mp hbr]
    have hderivpos : 0 < 6 * p * (1 - p) := by nlinarith
    have hnd : ¬(|6 * p * (1 - p)| < 1 / 10000) := by
      rw [abs_of_pos hderivpos]
      intro hlt
      have hid : p - gPoly p = p * (1 - p) * (1 - 2 * p) := by
        simp only [gPoly]
        ring
      have hle1 : p * (1 - p) * (1 - 2 * p) ≤ p * (1 - p) := by
        nlinarith [mul_nonneg (le_of_lt hp0) (by linarith : (0:ℚ) ≤ 1 - p)]
      linarith [hge, hid, hle1, hlt]
    rw [if_neg hnd]
    have hstep : p - (gPoly p - p) / (6 * p * (1 - p)) = (4 * p + 1) / 6 := by
      have hne : (6 * p * (1 - p)) ≠ 0 := ne_of_gt hderivpos
      field_simp
      simp only [gPoly]
      ring
    rw [hstep]
    have hin : (0:ℚ) < (4 * p + 1) / 6 := by linarith
    have hin2 : (4 * p + 1) / 6 ≤ 1 / 2 := by linarith
    have hcl : clampQ ((4 * p + 1) / 6) 0 1 = (4 * p + 1) / 6 := by
      unfold clampQ
      rw [if_neg (by linarith), if_neg (by linarith)]
    rw [hcl]
    have hd1 : gPoly ((4 * p + 1) / 6) - p = 2 * (1 - 2 * p) ^ 3 / 27 := by
      simp only [gPoly]
      ring
    have hd1n : 0 ≤ gPoly ((4 * p + 1) / 6) - p := by
      rw [hd1]
      have : (0:ℚ) ≤ 1 - 2 * p := by linarith
      positivity
    obtain ⟨hf0, hf1⟩ := findTLoop_id_bound p hp0 7 ((4 * p + 1) / 6) hin hin2 hd1n
    rw [abs_of_nonneg hf0]
    have hcube : (1 - 2 * p) ^ 3 ≤ 1 := by
      have h1 : (0:ℚ) ≤ 1 - 2 * p := by linarith
      have h2 : 1 - 2 * p ≤ 1 := by linarith
      calc (1 - 2 * p) ^ 3 ≤ 1 ^ 3 := by gcongr
        _ = 1 := one_pow 3
    have hd1b : gPoly ((4 * p + 1) / 6) - p ≤ 2 / 27 := by
      rw [hd1]
      linarith
    have hmaxb : max (1 / 10000) ((gPoly ((4 * p + 1) / 6) - p) / 2 ^ 7) ≤
        (1 : ℚ) / 1000 := by
      apply max_le
      · norm_num
      · have : (gPoly ((4 * p + 1) / 6) - p) / 2 ^ 7 ≤ (2 / 27) / 2 ^ 7 := by
          gcongr
        calc (gPoly ((4 * p + 1) / 6) - p) / 2 ^ 7 ≤ (2 / 27) / 2 ^ 7 := this
          _ ≤ 1 / 1000 := by norm_num
    linarith [hf1, hmaxb]

theorem clampQ_mirror (u : ℚ) : clampQ (1 - u) 0 1 = 1 - clampQ u 0 1 := by
  unfold clampQ
  split_ifs <;> linarith

/-- The identity-curve Newton solve commutes with the reflection
`t ↦ 1 − t`, `x ↦ 1 − x`. -/
theorem findTLoop_id_mirror (x : ℚ) : ∀ (n : ℕ) (t : ℚ),
    BezierCurve.findTLoop idCurve (1 - x) n (1 - t) =
      1 - BezierCurve.findTLoop idCurve x n t := by
  intro n
  induction n with
  | zero => intro t; rfl
  | succ m ih =>
    intro t
    rw [findTLoop_id_succ, findTLoop_id_succ]
    have hg : gPoly (1 - t) = 1 - gPoly t := by
      simp only [gPoly]
      ring
    have habs : |gPoly (1 - t) - (1 - x)| = |gPoly t - x| := by
      rw [hg, show 1 - gPoly t - (1 - x) = -(gPoly t - x) from by ring, abs_neg]
    have hder : 6 * (1 - t) * (1 - (1 - t)) = 6 * t * (1 - t) := by ring
    rw [habs, hder]
    by_cases h1 : |gPoly t - x| < 1 / 10000
    · rw [if_pos h1, if_pos h1]
    · rw [if_neg h1, if_neg h1]
      by_cases h2 : |6 * t * (1 - t)| < 1 / 10000
      · rw [if_pos h2, if_pos h2]
      · rw [if_neg h2, if_neg h2]
        have harg : 1 - t - (gPoly (1 - t) - (1 - x)) / (6 * t * (1 - t)) =
            1 - (t - (gPoly t - x) / (6 * t * (1 - t))) := by
          rw [hg]
          ring
        rw [harg, clampQ_mirror, ih]

/-- C7: the easing evaluator with the identity curve returns exactly 0
for `p ≤ 0` and exactly 1 for `p ≥ 1`; strictly inside `(0,1)` it runs
the 8-iteration Newton solve of `x(t) = p` and returns `y` at the found
parameter; and on all of `[0,1]` the result is within `1e-3` of `p`
(the proved bound is `max(1e-4, 1/1728)`). -/
theorem c7_identity_bezier_evaluate (p : ℚ) :
    (p ≤ 0 → idCurve.getYForX p = 0) ∧
    (1 ≤ p → idCurve.getYForX p = 1) ∧
    (0 < p → p < 1 →
      idCurve.getYForX p =
        idCurve.computeY (BezierCurve.findTLoop idCurve p 8 p)) ∧
    (0 ≤ p → p ≤ 1 → |idCurve.getYForX p - p| ≤ 1 / 1000) := by
  refine ⟨?_, ?_, ?_, ?_⟩
  · intro h
    simp [BezierCurve.getYForX, h]
  · intro h
    unfold BezierCurve.getYForX
    rcases eq_or_lt_of_le h with he | hgt
    · rw [if_neg (by rw [← he]; norm_num), if_pos (by rw [← he])]
    · rw [if_neg (by linarith), if_pos (by linarith)]
  · intro h0 h1
    unfold BezierCurve.getYForX BezierCurve.findTForX
    rw [if_neg (by linarith), if_neg (by linarith)]
  · intro h0 h1
    rcases eq_or_lt_of_le h0 with he0 | h0'
    · rw [show idCurve.getYForX p = 0 from by simp [BezierCurve.getYForX, ← he0]]
      rw [← he0]
      norm_num
    rcases eq_or_lt_of_le h1 with he1 | h1'
    · rw [show idCurve.getYForX p = 1 from by
        unfold BezierCurve.getYForX
        rw [if_neg (by linarith), if_pos (by rw [he1])]]
      rw [he1]
      norm_num
    have hY : idCurve.getYForX p =
        gPoly (BezierCurve.findTLoop idCurve p 8 p) := by
      unfold BezierCurve.getYForX BezierCurve.findTForX
      rw [if_neg (by linarith), if_neg (by linarith), idCurve_computeY]
    rw [hY]
    rcases le_or_lt p (1 / 2) with hhalf | hhalf
    · exact findTForX_id_err_left p h0' hhalf
    · have hq0 : 0 < 1 - p := by linarith
      have hq2 : 1 - p ≤ 1 / 2 := by linarith
      have herr := findTForX_id_err_left (1 - p) hq0 hq2
      have hm := findTLoop_id_mirror (1 - p) 8 (1 - p)
      rw [show (1 : ℚ) - (1 - p) = p from by ring] at hm
      rw [hm]
      have hg : gPoly (1 - BezierCurve.findTLoop idCurve (1 - p) 8 (1 - p)) =
          1 - gPoly (BezierCurve.findTLoop idCurve (1 - p) 8 (1 - p)) := by
        simp only [gPoly]
        ring
      rw [hg]
      calc |1 - gPoly (BezierCurve.findTLoop idCurve (1 - p) 8 (1 - p)) - p|
          = |gPoly (BezierCurve.findTLoop idCurve (1 - p) 8 (1 - p)) - (1 - p)| := by
            rw [show 1 - gPoly (BezierCurve.findTLoop idCurve (1 - p) 8 (1 - p)) - p =
              -(gPoly (BezierCurve.findTLoop idCurve (1 - p) 8 (1 - p)) - (1 - p))
              from by ring, abs_neg]
        _ ≤ 1 / 1000 := herr

/-- Witness for C7 at `p = 1/3`. -/
theorem c7_witness :
    (0 ≤ (1 / 3 : ℚ)) ∧ ((1 / 3 : ℚ) ≤ 1) ∧
    |idCurve.getYForX (1 / 3) - 1 / 3| ≤ 1 / 1000 :=
  ⟨by norm_num, by norm_num,
    (c7_identity_bezier_evaluate (1 / 3)).2.2.2 (by norm_num) (by norm_num)⟩

/-! ## Claim C9 -/

/-- C9: the tree-node child accessors are total at the public interface:
for every store of nodes, every node and every integer index outside
`{0, 1}`, `child(idx)` returns the null sentinel and
`setChild(idx, newChild)` is a no-op leaving the whole store — both child
slots and the prospective child's parent reference — unchanged. -/
theorem c9_child_accessors_total (s : PtrModel.Store) (self : ℕ) (idx : ℤ)
    (newChild : Option ℕ) (h : idx < 0 ∨ 2 ≤ idx) :
    PtrModel.child s self idx = none ∧ PtrModel.setChild s self idx newChild = s := by
  constructor
  · unfold PtrModel.child
    rw [if_neg]
    omega
  · unfold PtrModel.setChild
    rw [if_pos]
    omega

/-- Witness for C9 at the concrete out-of-range index 5. -/
theorem c9_witness :
    ((5 : ℤ) < 0 ∨ 2 ≤ (5 : ℤ)) ∧
    (PtrModel.child (fun _ => {}) 0 5 = none ∧
      PtrModel.setChild (fun _ => {}) 0 5 (some 3) = (fun _ => {})) :=
  ⟨by decide, c9_child_accessors_total (fun _ => {}) 0 5 (some 3) (by decide)⟩

/-! ## Claim C10 -/

/-- C10: for every tree state, the scale/alpha query for a window handle
not present in the tree (including the empty tree) returns the neutral
sentinel pair `(1.0, 1.0)` rather than a none/empty result. -/
theorem c10_unknown_view_scale_alpha (s : TileTree) (v : ℕ)
    (h : s.hasView v = false) : s.getViewScaleAlpha v = (1, 1) := by
  unfold TileTree.getViewScaleAlpha
  unfold TileTree.hasView at h
  cases hr : s.root with
  | none => simp
  | some r =>
    rw [hr] at h
    unfold Tree.hasViewT at h
    cases hfv : r.findViewT v with
    | none => simp [hfv]
    | some n => simp [hfv] at h

/-- Witness for C10 on the empty tree and handle 42. -/
theorem c10_witness :
    (({} : TileTree).hasView 42 = false ∧
      ({} : TileTree).getViewScaleAlpha 42 = (1, 1)) :=
  ⟨rfl, c10_unknown_view_scale_alpha {} 42 rfl⟩

/-! ## Claim C5 -/

/-- C5: in every `applyLayout` pass on a split node — not just at split
creation — unless `preserveSplit` is set or the node is direction-locked,
the split direction is recomputed as horizontal when
`bounds.width × splitWidthMultiplier > bounds.height` and vertical
otherwise; when suppressed it keeps its stored direction. -/
theorem c5_direction_recomputed_every_pass (d : SplitDir) (ρ : ℚ) (l : Bool)
    (g : AnimatedGeometry) (c0 c1 : Tree) (bounds : Geometry) (gapIn gapOut : ℤ)
    (preserve : Bool) (mult : ℚ) (animate : Bool) (c : Clock) (k : ℕ) :
    ((Tree.split d ρ l g c0 c1).applyLayout bounds gapIn gapOut preserve mult
        animate c k).1.dirOf =
      (if preserve = false ∧ l = false then
        (if (bounds.width : ℚ) * mult > (bounds.height : ℚ) then
          SplitDir.HORIZONTAL
        else SplitDir.VERTICAL)
      else d) := rfl

end AnimatedTile
